import Mathlib

/-!
# Verification of the secure request pipeline (kibana-assistant-mcp-server)

Shallow embedding of the repository's library layer in Lean 4:

* `src/lib/piiRedaction.ts` — the PII redaction engine (pattern matchers
  modelled after the source's regular expressions, Luhn validation, masks,
  recursive traversal),
* `src/lib/esClient.ts` — the retry wrapper, glob-based index access scope,
  search/mapping/cat operations with a backend-call trace,
* `src/lib/inputSanitizer.ts` — index-name character-set validation,
* `src/lib/auditLogger.ts` — audit entry truncation and the enable switch,
* `src/lib/toolWrapper.ts` — the secure pipeline orchestrator,
* `src/tools/kibanaSearch.ts` — query classification and time-range merging,
* `src/tools/listIndices.ts` / `discoverCluster.ts` — listing with
  post-filtering against the allow-list.

JavaScript values flowing through the pipeline are modelled by the `Json`
type (JSON numbers as integers; none of the verified properties depend on
fractional values).  Thrown JavaScript errors are modelled by `JsFault` and
`Except`.  Regex matching is embedded by deterministic scanners that follow
the JS engine's leftmost-match, greedy-with-backtracking semantics for the
five fixed patterns of the redaction engine; comments on each scanner record
why the scanner agrees with the backtracking search of the original regex.
-/

namespace KibanaMCP

/-- JSON-like JavaScript values.  Object fields are kept in insertion order,
mirroring JS object property order; numbers are modelled as integers. -/
inductive Json where
  | null
  | bool (b : Bool)
  | num (n : Int)
  | str (s : String)
  | arr (elems : List Json)
  | obj (fields : List (String × Json))
deriving Repr

/-- JS truthiness of a JSON-representable value: `null`, `false`, `0` and
`""` are falsy; arrays and objects are always truthy. -/
def jsTruthy : Json → Bool
  | .null => false
  | .bool b => b
  | .num n => n != 0
  | .str s => s != ""
  | .arr _ => true
  | .obj _ => true

/-- First binding of a key in an object's field list (JS property lookup;
field lists built by the embedding never contain duplicate keys). -/
def lookupField : List (String × Json) → String → Option Json
  | [], _ => none
  | (k, v) :: rest, key => if k == key then some v else lookupField rest key

/-- Property access `j.key` through the model: only objects carry
first-class fields.  (Prototype properties of strings/arrays, such as
`Array.prototype.filter`, are not modelled; the theorems that touch the
corner where they would matter restrict the shape accordingly.) -/
def getField : Json → String → Option Json
  | .obj kvs, key => lookupField kvs key
  | _, _ => none

/-- `{...o, key: v}` on an object whose fields are `kvs`: an existing key
keeps its position and gets the new value, a fresh key is appended. -/
def setField : List (String × Json) → String → Json → List (String × Json)
  | [], key, v => [(key, v)]
  | (k, w) :: rest, key, v =>
    if k == key then (k, v) :: rest else (k, w) :: setField rest key v

/-- Spreading a value into an object literal (`{...x}`): objects contribute
their fields, everything else contributes nothing.  (Spreading strings or
arrays would contribute index-keyed fields; the verified statements restrict
to object clauses, where this model is exact.) -/
def spreadFields : Json → List (String × Json)
  | .obj kvs => kvs
  | _ => []

/-! ## Redaction engine: character classes (`src/lib/piiRedaction.ts`)

JS regex ASCII classes.  `\s` is modelled by the ASCII whitespace characters
plus NBSP; the redaction claims are insensitive to the exotic Unicode
whitespace also covered by JS `\s`. -/

/-- JS `\s` (restricted to ASCII whitespace and NBSP). -/
def isJsSpace (c : Char) : Bool :=
  c == ' ' || c == '\t' || c == '\n' || c == '\r' || c == '\x0b' ||
  c == '\x0c' || c == '\xa0'

/-- The `[\s-]` class of the credit-card pattern. -/
def isSepSD (c : Char) : Bool := isJsSpace c || c == '-'

/-- JS `\w` word character `[A-Za-z0-9_]`, used by the `\b` assertion. -/
def isWordC (c : Char) : Bool := c.isAlphanum || c == '_'

/-- Word-ness of an optional neighbouring character (`none` at the ends of
the string counts as non-word for `\b`). -/
def isWordOpt : Option Char → Bool
  | none => false
  | some c => isWordC c

/-- The `[A-Z0-9]` class of the IBAN pattern body. -/
def isIbanBodyC (c : Char) : Bool := c.isUpper || c.isDigit

/-- The `[a-zA-Z0-9._%+-]` local-part class of the email pattern. -/
def isLocalC (c : Char) : Bool :=
  c.isAlphanum || c == '.' || c == '_' || c == '%' || c == '+' || c == '-'

/-- The `[a-zA-Z0-9.-]` domain class of the email pattern. -/
def isDomainC (c : Char) : Bool := c.isAlphanum || c == '.' || c == '-'

/-- The `[\s.-]` separator class of the phone pattern. -/
def isPhoneSep (c : Char) : Bool := isJsSpace c || c == '.' || c == '-'

/-- Consume exactly `n` digits (`\d{n}`). -/
def takeDigits : Nat → List Char → Option (List Char × List Char)
  | 0, l => some ([], l)
  | _ + 1, [] => none
  | n + 1, c :: l =>
    if c.isDigit then (takeDigits n l).map (fun p => (c :: p.1, p.2)) else none

/-! ## Credit-card matcher

Regex: `\b(\d{4}[\s-]?\d{4}[\s-]?\d{4}[\s-]?\d{4})\b`.  Each `[\s-]?` is
deterministic: the separator class is disjoint from `\d`, so if the next
character is a separator the greedy path (consume it, then require four
digits) is the only one that can succeed, and otherwise only the empty
path can.  The leading `\b` reduces to "previous character non-word"
because the first matched character is a digit. -/

/-- `([\s-]?\d{4}){n}` with the deterministic treatment of `[\s-]?`. -/
def matchCardGroups : Nat → List Char → Option (List Char × List Char)
  | 0, l => some ([], l)
  | _ + 1, [] => none
  | n + 1, c :: l =>
    if isSepSD c then
      (takeDigits 4 l).bind fun p =>
        (matchCardGroups n p.2).map fun q => (c :: p.1 ++ q.1, q.2)
    else
      (takeDigits 4 (c :: l)).bind fun p =>
        (matchCardGroups n p.2).map fun q => (p.1 ++ q.1, q.2)

/-- Attempt the credit-card regex at the current position. -/
def matchCreditAt (prev : Option Char) (s : List Char) :
    Option (List Char × List Char) :=
  if isWordOpt prev then none
  else
    (takeDigits 4 s).bind fun p =>
      (matchCardGroups 3 p.2).bind fun q =>
        -- trailing \b: the last matched character is a digit (word), so the
        -- next character must be non-word or the end of the string
        if isWordOpt q.2.head? then none else some (p.1 ++ q.1, q.2)

/-! ## IBAN matcher

Regex: `\b([A-Z]{2}\d{2}[A-Z0-9]{4,30})\b`.  The greedy `{4,30}` takes the
maximal run of class characters: giving characters back leaves a class
character (hence a word character) right after the match, so the trailing
`\b` can only hold at the maximal take, and only when the maximal run has
length at most 30 and is followed by a non-word character or the end. -/

/-- Attempt the IBAN regex at the current position. -/
def matchIbanAt (prev : Option Char) : List Char → Option (List Char × List Char)
  | a :: b :: c :: d :: rest =>
    if isWordOpt prev then none
    else if a.isUpper && b.isUpper && c.isDigit && d.isDigit then
      if 4 ≤ (rest.takeWhile isIbanBodyC).length &&
          (rest.takeWhile isIbanBodyC).length ≤ 30 &&
          !(isWordOpt (rest.dropWhile isIbanBodyC).head?) then
        some (a :: b :: c :: d :: rest.takeWhile isIbanBodyC,
          rest.dropWhile isIbanBodyC)
      else none
    else none
  | _ => none

/-! ## SSN matcher

Regex: `\b(\d{3}-\d{2}-\d{4})\b` — no quantifier choices at all. -/

/-- Attempt the SSN regex at the current position. -/
def matchSsnAt (prev : Option Char) : List Char → Option (List Char × List Char)
  | a :: b :: c :: s1 :: d :: e :: s2 :: f :: g :: h :: i :: rest =>
    if isWordOpt prev then none
    else if a.isDigit && b.isDigit && c.isDigit && s1 == '-' &&
        d.isDigit && e.isDigit && s2 == '-' &&
        f.isDigit && g.isDigit && h.isDigit && i.isDigit &&
        !(isWordOpt rest.head?) then
      some ([a, b, c, s1, d, e, s2, f, g, h, i], rest)
    else none
  | _ => none

/-! ## Email matcher

Regex: `\b([a-zA-Z0-9._%+-]+@[a-zA-Z0-9.-]+\.[a-zA-Z]{2,})\b`.

The local `+` is deterministic (the class excludes `@`, so only the maximal
run can be followed by the literal `@`).  The domain `+` genuinely
backtracks: it starts from the maximal run of domain characters and gives
back characters from the end until the literal `.` matches, i.e. the split
point is the rightmost `.` inside the maximal domain run that makes the
rest of the pattern succeed.  The final `[a-zA-Z]{2,}` is deterministic
again: giving a letter back leaves a letter (word) after the match, so only
the maximal letter run can satisfy the trailing `\b`. -/

/-- Backtracking search for the domain split after the `@`: try the
cut points `k = |run| - 1, …, 1` (the greedy order of the domain `+`),
requiring a literal `.` at the cut followed by at least two letters and a
word boundary. -/
def emailAfterAt (rest2 : List Char) : Option (List Char × List Char) :=
  (List.range (rest2.takeWhile isDomainC).length).reverse.findSome? fun k =>
    if k == 0 then none
    else if (rest2.drop k).head? == some '.' then
      if 2 ≤ ((rest2.drop k).tail.takeWhile Char.isAlpha).length &&
          !(isWordOpt ((rest2.drop k).tail.dropWhile Char.isAlpha).head?) then
        some (rest2.take k ++ '.' :: (rest2.drop k).tail.takeWhile Char.isAlpha,
          (rest2.drop k).tail.dropWhile Char.isAlpha)
      else none
    else none

/-- Attempt the email regex at the current position.  The leading `\b` is
evaluated against the first matched character, which may itself be a
non-word character such as `.` or `-`. -/
def matchEmailAt (prev : Option Char) : List Char → Option (List Char × List Char)
  | c0 :: rest =>
    if isLocalC c0 && (isWordOpt prev != isWordC c0) then
      if ((c0 :: rest).dropWhile isLocalC).head? == some '@' then
        (emailAfterAt ((c0 :: rest).dropWhile isLocalC).tail).map fun p =>
          ((c0 :: rest).takeWhile isLocalC ++ '@' :: p.1, p.2)
      else none
    else none
  | [] => none

/-! ## Phone matcher

Regex: `(\+\d{1,3}[\s.-]?\d[\s.-]?\d{3,4}[\s.-]?\d{3,4})\b` — no leading
`\b`.  All quantifiers are small and bounded, so the JS backtracking search
is embedded as an explicit enumeration of the candidate quantifier choices
in greedy order (leftmost quantifier varies slowest, each greedy quantifier
tries its longer/consuming alternative first). -/

/-- Consume one `[\s.-]` separator (`take = true`) or nothing. -/
def takeSepOpt : Bool → List Char → Option (List Char × List Char)
  | true, c :: r => if isPhoneSep c then some ([c], r) else none
  | true, [] => none
  | false, l => some ([], l)

/-- Quantifier choices `(a, s1, s2, b, s3, c)` for the phone pattern in the
backtracking order of the JS engine. -/
def phoneTuples : List (Nat × Bool × Bool × Nat × Bool × Nat) :=
  [3, 2, 1].flatMap fun a =>
    [true, false].flatMap fun s1 =>
      [true, false].flatMap fun s2 =>
        [4, 3].flatMap fun b =>
          [true, false].flatMap fun s3 =>
            [4, 3].map fun c => (a, s1, s2, b, s3, c)

/-- Attempt one phone quantifier choice on the text after the `+`. -/
def phoneTry (s : List Char) : Nat × Bool × Bool × Nat × Bool × Nat →
    Option (List Char × List Char)
  | (a, s1, s2, b, s3, c) =>
    (takeDigits a s).bind fun p1 =>
      (takeSepOpt s1 p1.2).bind fun p2 =>
        (takeDigits 1 p2.2).bind fun p3 =>
          (takeSepOpt s2 p3.2).bind fun p4 =>
            (takeDigits b p4.2).bind fun p5 =>
              (takeSepOpt s3 p5.2).bind fun p6 =>
                (takeDigits c p6.2).bind fun p7 =>
                  if isWordOpt p7.2.head? then none
                  else
                    some (p1.1 ++ p2.1 ++ p3.1 ++ p4.1 ++ p5.1 ++ p6.1 ++ p7.1,
                      p7.2)

/-- Attempt the phone regex at the current position. -/
def matchPhoneAt (_prev : Option Char) : List Char → Option (List Char × List Char)
  | c :: rest =>
    if c == '+' then
      (phoneTuples.findSome? (phoneTry rest)).map fun p => ('+' :: p.1, p.2)
    else none
  | [] => none

/-! ## Luhn check and masks (`luhnCheck`, `PATTERNS[*].mask`) -/

/-- The doubling loop of `luhnCheck`, over digit values from the rightmost
digit leftwards; `alt` doubles every second digit. -/
def luhnLoop : Bool → List Nat → Nat
  | _, [] => 0
  | alt, d :: rest =>
    (if alt then (if d * 2 > 9 then d * 2 - 9 else d * 2) else d) +
      luhnLoop (!alt) rest

/-- `luhnCheck(num)`: strip non-digits, then the alternating doubled sum
from the right must be divisible by 10. -/
def luhnCheck (s : List Char) : Bool :=
  let ds := (s.filter Char.isDigit).map (fun c => c.toNat - 48)
  luhnLoop false ds.reverse % 10 == 0

/-- `PATTERNS[credit_card].mask`: keep the last 4 digits, replace the three
leading groups by `****`, using `-` as separator if the match contains one,
else a space if it contains one, else nothing; non-16-digit or Luhn-failing
matches are returned unchanged. -/
def creditMask (m : List Char) : List Char :=
  let digits := m.filter Char.isDigit
  if digits.length != 16 || !luhnCheck digits then m
  else
    let last4 := digits.drop 12
    let sep : List Char :=
      if m.contains '-' then ['-'] else if m.contains ' ' then [' '] else []
    ['*', '*', '*', '*'] ++ sep ++ ['*', '*', '*', '*'] ++ sep ++
      ['*', '*', '*', '*'] ++ sep ++ last4

/-- `PATTERNS[iban].mask`: matches shorter than 15 characters pass through;
otherwise first 4 + `****` + last 4. -/
def ibanMask (m : List Char) : List Char :=
  if m.length < 15 then m
  else m.take 4 ++ ['*', '*', '*', '*'] ++ m.drop (m.length - 4)

/-- `PATTERNS[ssn].mask`: fixed placeholder. -/
def ssnMask (_m : List Char) : List Char :=
  ['*', '*', '*', '-', '*', '*', '-', '*', '*', '*', '*']

/-- `PATTERNS[email].mask`: first character of the local part + `***@` +
the full domain.  The matcher guarantees a non-empty local part and exactly
one `@`, so the split below is total on real matches. -/
def emailMask (m : List Char) : List Char :=
  match m.takeWhile (fun c => c != '@') with
  | c :: _ => c :: '*' :: '*' :: '*' :: (m.dropWhile (fun c => c != '@'))
  | [] => m

/-- `PATTERNS[phone].mask`: matches with fewer than 8 digits pass through;
otherwise `+` + first 2 digits + `***` + last 2 digits. -/
def phoneMask (m : List Char) : List Char :=
  let digits := m.filter Char.isDigit
  if digits.length < 8 then m
  else '+' :: digits.take 2 ++ '*' :: '*' :: '*' :: digits.drop (digits.length - 2)

/-- One entry of the `PATTERNS` table. -/
structure RPattern where
  pname : String
  matchAt : Option Char → List Char → Option (List Char × List Char)
  mask : List Char → List Char

/-- The fixed, ordered `PATTERNS` table of the redaction engine. -/
def PATTERNS : List RPattern :=
  [⟨"credit_card", matchCreditAt, creditMask⟩,
   ⟨"iban", matchIbanAt, ibanMask⟩,
   ⟨"ssn", matchSsnAt, ssnMask⟩,
   ⟨"email", matchEmailAt, emailMask⟩,
   ⟨"phone", matchPhoneAt, phoneMask⟩]

/-- Leftmost match of a matcher: scan start positions left to right carrying
the previous character for `\b`; returns `(prefix, match, rest)`. -/
def findFrom (m : Option Char → List Char → Option (List Char × List Char)) :
    Option Char → List Char → Option (List Char × List Char × List Char)
  | _, [] => none
  | prev, c :: rest =>
    match m prev (c :: rest) with
    | some (mt, r) => some ([], mt, r)
    | none => (findFrom m (some c) rest).map fun p => (c :: p.1, p.2.1, p.2.2)

/-- `String.prototype.replace` with a global regex and a counting callback:
repeatedly find the leftmost match (matching always against the original
text — the `\b` context after a match is the last character of the matched
text, not of its replacement), replace it by its mask, and count the
replacements that changed the text.  Fuel bounds the number of matches; the
initial fuel `length + 1` is never exhausted because every pattern matches
at least one character. -/
def replaceCount (p : RPattern) : Nat → Option Char → List Char →
    List Char × Nat
  | 0, _, s => (s, 0)
  | fuel + 1, prev, s =>
    match findFrom p.matchAt prev s with
    | none => (s, 0)
    | some (pre, mt, r) =>
      let masked := p.mask mt
      let next := replaceCount p fuel mt.getLast? r
      (pre ++ masked ++ next.1, (if masked == mt then 0 else 1) + next.2)

/-- Insertion-ordered `Set.add` of `typesFound`. -/
def addType (ts : List String) (n : String) : List String :=
  if n ∈ ts then ts else ts ++ [n]

/-- One pattern pass of `redactString` over the string state. -/
def applyPattern (acc : List Char × Nat × List String) (p : RPattern) :
    List Char × Nat × List String :=
  let r := replaceCount p (acc.1.length + 1) none acc.1
  (r.1, acc.2.1 + r.2, if r.2 == 0 then acc.2.2 else addType acc.2.2 p.pname)

/-- `redactString(value, typesFound)`: run every pattern in the fixed order,
threading the partially masked text, the change count and the category
set. -/
def redactStringL (s : List Char) (types : List String) :
    List Char × Nat × List String :=
  PATTERNS.foldl applyPattern (s, 0, types)

mutual

/-- `redactRecursive`: strings are scanned, arrays mapped element-wise,
objects mapped value-wise preserving keys, other primitives pass through. -/
def redactJson : Json → List String → Json × Nat × List String
  | .str s, types =>
    let r := redactStringL s.data types
    (.str ⟨r.1⟩, r.2.1, r.2.2)
  | .arr xs, types =>
    let r := redactArr xs types
    (.arr r.1, r.2.1, r.2.2)
  | .obj kvs, types =>
    let r := redactObj kvs types
    (.obj r.1, r.2.1, r.2.2)
  | j, types => (j, 0, types)

/-- Element-wise traversal of an array. -/
def redactArr : List Json → List String → List Json × Nat × List String
  | [], types => ([], 0, types)
  | x :: xs, types =>
    let r1 := redactJson x types
    let r2 := redactArr xs r1.2.2
    (r1.1 :: r2.1, r1.2.1 + r2.2.1, r2.2.2)

/-- Value-wise traversal of an object, preserving keys and order. -/
def redactObj : List (String × Json) → List String →
    List (String × Json) × Nat × List String
  | [], types => ([], 0, types)
  | (k, v) :: kvs, types =>
    let r1 := redactJson v types
    let r2 := redactObj kvs r1.2.2
    ((k, r1.1) :: r2.1, r1.2.1 + r2.2.1, r2.2.2)

end

/-- `RedactionResult` of `redactPII`. -/
structure RedactionResult where
  redactedData : Json
  redactionCount : Nat
  redactedTypes : List String
deriving Repr

/-- `redactPII(data)`: recursive scan with a fresh category set. -/
def redactPII (data : Json) : RedactionResult :=
  let r := redactJson data []
  ⟨r.1, r.2.1, r.2.2⟩

/-- Convenience wrapper of `redactString` on `String`. -/
def redactString (s : String) : String × Nat × List String :=
  let r := redactStringL s.data []
  (⟨r.1⟩, r.2.1, r.2.2)

/-! ## Thrown JavaScript errors

A thrown value as observed by the pipeline's catch/classification sites:
`error.response?.status`, `error.response?.data?.error?.reason`,
`error.response?.data?.message` and `error.message`. -/

/-- The observable fields of a thrown error. -/
structure JsFault where
  responseStatus : Option Nat := none
  responseDataErrorReason : Option String := none
  responseDataMessage : Option String := none
  message : Option String := none
deriving Repr, DecidableEq

/-- `new Error(msg)`. -/
def mkError (msg : String) : JsFault := { message := some msg }

/-! ## Input sanitizer (`src/lib/inputSanitizer.ts`) -/

/-- The character class of `INDEX_NAME_REGEX = /^[a-zA-Z0-9\-.*,_]+$/`. -/
def isIndexNameC (c : Char) : Bool :=
  c.isAlphanum || c == '-' || c == '.' || c == '*' || c == ',' || c == '_'

/-- `!index || !INDEX_NAME_REGEX.test(index)` — the empty string is falsy
and the regex requires one or more class characters. -/
def validIndexName (index : String) : Bool :=
  index != "" && index.data.all isIndexNameC

/-- `validateIndexName(index)`: throws on an invalid name. -/
def validateIndexName (index : String) : Except JsFault Unit :=
  if validIndexName index then .ok ()
  else .error (mkError ("Invalid index name " ++ index))

/-! ## Glob matching (`globMatch` in esClient.ts / listIndices.ts / discoverCluster.ts)

`globMatch` escapes the regex metacharacters `.+^${}()|[]\`, turns `*` into
`.*`, anchors with `^...$` and tests.  After escaping, the only characters
with regex meaning left in the pattern are `*` (any run) and an unescaped
`?`, which makes the preceding atom optional; a `?` with no preceding atom
makes the `RegExp` constructor throw a `SyntaxError` (modelled by `none`
from the lexer). -/

/-- Tokens of the compiled glob regex. -/
inductive GlobTok where
  | lit (c : Char)
  | anyRun
  | optChar (c : Char)
deriving Repr, DecidableEq

/-- Lex a glob pattern into regex tokens; `none` models the `SyntaxError`
thrown for a `?` with nothing to repeat.  A second `?` after a quantified
atom is the lazy marker and leaves the matched language unchanged. -/
def globLex : List Char → Option (List GlobTok)
  | [] => some []
  | '*' :: '?' :: rest => (globLex rest).map (fun ts => .anyRun :: ts)
  | '*' :: rest => (globLex rest).map (fun ts => .anyRun :: ts)
  | '?' :: _ => none
  | c :: '?' :: '?' :: rest => (globLex rest).map (fun ts => .optChar c :: ts)
  | c :: '?' :: rest => (globLex rest).map (fun ts => .optChar c :: ts)
  | c :: rest => (globLex rest).map (fun ts => .lit c :: ts)

/-- Anchored matching of the token list against the string, with explicit
fuel (every recursive call shrinks `tokens + text`, so
`ts.length + s.length + 1` fuel is always enough; the fuel keeps the
recursion structural and hence computable by the kernel). -/
def gmatchF : Nat → List GlobTok → List Char → Bool
  | 0, _, _ => false
  | _ + 1, [], [] => true
  | _ + 1, [], _ :: _ => false
  | _ + 1, .lit _ :: _, [] => false
  | fuel + 1, .lit c :: ts, x :: xs => c == x && gmatchF fuel ts xs
  | fuel + 1, .optChar _ :: ts, [] => gmatchF fuel ts []
  | fuel + 1, .optChar c :: ts, x :: xs =>
    (c == x && gmatchF fuel ts xs) || gmatchF fuel ts (x :: xs)
  | fuel + 1, .anyRun :: ts, [] => gmatchF fuel ts []
  | fuel + 1, .anyRun :: ts, x :: xs =>
    gmatchF fuel ts (x :: xs) || gmatchF fuel (.anyRun :: ts) xs

/-- Anchored matching of the token list against the whole string. -/
def gmatch (ts : List GlobTok) (s : List Char) : Bool :=
  gmatchF (ts.length + s.length + 1) ts s

/-- `globMatch(pattern, value)`: `none` models the thrown `SyntaxError`. -/
def jsGlobMatch (pattern value : String) : Option Bool :=
  (globLex pattern.data).map (fun ts => gmatch ts value.data)

/-- `globMatch` in the exception monad of the calling code. -/
def globMatchE (pattern value : String) : Except JsFault Bool :=
  match jsGlobMatch pattern value with
  | some b => .ok b
  | none => .error (mkError "SyntaxError: Invalid regular expression")

/-- `Array.prototype.some` with a predicate that may throw: short-circuits
on the first `true`, propagates the first throw reached. -/
def jsSome (f : α → Except JsFault Bool) : List α → Except JsFault Bool
  | [] => .ok false
  | x :: xs => (f x).bind fun b => if b then .ok true else jsSome f xs

/-- `Array.prototype.filter` with a predicate that may throw. -/
def jsFilter (f : α → Except JsFault Bool) : List α → Except JsFault (List α)
  | [] => .ok []
  | x :: xs =>
    (f x).bind fun b =>
      (jsFilter f xs).map fun rest => if b then x :: rest else rest

/-! ## Server configuration (`src/lib/config.ts`) -/

/-- `ServerConfig`, immutable after load. -/
structure ServerConfig where
  kibanaUrl : String := ""
  elasticsearchUrl : String := ""
  kibanaApiKey : String := ""
  allowedIndexPatterns : List String := []
  maxSearchSize : Int := 100
  requestTimeoutMs : Int := 30000
  retryAttempts : Nat := 3
  retryDelayMs : Nat := 1000
  kibanaSpace : String := ""
  auditEnabled : Bool := true
  piiRedactionEnabled : Bool := true
deriving Repr

/-! ## Backend client with retry (`src/lib/esClient.ts`)

The HTTP layer is a parameter `http : Nat → BackendCall → Except JsFault
Json` giving the outcome of each numbered attempt of a request; the model
records the calls actually issued. -/

/-- One HTTP request to the backend (the fields the claims observe). -/
structure RetryTrace (α : Type) where
  result : Except (Option JsFault) α
  calls : Nat
  sleeps : List Nat
deriving Repr

/-- `status && status >= 400 && status < 500 && status !== 429` — the
"don't retry on client errors (except 429)" test of `withRetry`. -/
def isTerminalClientError : Option Nat → Bool
  | some s => decide (400 ≤ s) && decide (s < 500) && s != 429
  | none => false

/-- The retry loop of `withRetry`, unrolled over the remaining attempts.
`attempt` is the current loop index; a non-terminal failure sleeps
`retryDelayMs * 2 ^ attempt` when further attempts remain; the loop exit
rethrows the last observed failure (`none` when no attempt ran). -/
def withRetryAux (delayMs : Nat) (fn : Nat → Except JsFault α) :
    Nat → Nat → Option JsFault → RetryTrace α
  | _, 0, lastError => ⟨.error lastError, 0, []⟩
  | attempt, remaining + 1, _ =>
    match fn attempt with
    | .ok v => ⟨.ok v, 1, []⟩
    | .error e =>
      if isTerminalClientError e.responseStatus then ⟨.error (some e), 1, []⟩
      else
        let rest := withRetryAux delayMs fn (attempt + 1) remaining (some e)
        ⟨rest.result, 1 + rest.calls,
          (if remaining > 0 then [delayMs * 2 ^ attempt] else []) ++ rest.sleeps⟩

/-- `withRetry(fn)` under configuration `cfg`. -/
def withRetry (cfg : ServerConfig) (fn : Nat → Except JsFault α) : RetryTrace α :=
  withRetryAux cfg.retryDelayMs fn 0 cfg.retryAttempts none

/-- One HTTP request issued to the backend (the fields the claims observe). -/
inductive BackendCall where
  | searchCall (index : String) (body : Json) (size : Int)
  | catIndicesCall (pattern : String)
  | getMappingCall (index : String)
deriving Repr

/-- `ElasticsearchClient.validateIndex`: character-set validation followed
by the allow-list glob check (skipped when the allow-list is empty). -/
def validateIndex (cfg : ServerConfig) (index : String) : Except JsFault Unit :=
  (validateIndexName index).bind fun _ =>
    if cfg.allowedIndexPatterns.length > 0 then
      (jsSome (fun p => globMatchE p index) cfg.allowedIndexPatterns).bind
        fun allowed =>
          if allowed then .ok ()
          else .error (mkError ("Index " ++ index ++
            " is not in the allowed index patterns"))
    else .ok ()

/-- `ElasticsearchClient.search`: validate, cap the page size at
`maxSearchSize`, then POST through the retry wrapper.  The returned list
records every HTTP call issued (one per attempt). -/
def searchES (cfg : ServerConfig) (http : Nat → BackendCall → Except JsFault Json)
    (index : String) (body : Json) (size : Int) :
    Except (Option JsFault) Json × List BackendCall :=
  match validateIndex cfg index with
  | .error e => (.error (some e), [])
  | .ok _ =>
    let call := BackendCall.searchCall index body (min size cfg.maxSearchSize)
    let t := withRetry cfg (fun i => http i call)
    (t.result, List.replicate t.calls call)

/-- `ElasticsearchClient.getMapping`: validate, then GET through the retry
wrapper. -/
def getMappingES (cfg : ServerConfig)
    (http : Nat → BackendCall → Except JsFault Json) (index : String) :
    Except (Option JsFault) Json × List BackendCall :=
  match validateIndex cfg index with
  | .error e => (.error (some e), [])
  | .ok _ =>
    let call := BackendCall.getMappingCall index
    let t := withRetry cfg (fun i => http i call)
    (t.result, List.replicate t.calls call)

/-! ## Audit logger (`src/lib/auditLogger.ts`) -/

/-- One audit record (`AuditEntry`). -/
structure AuditEntry where
  timestamp : String
  tool_called : String
  input_parameters : String
  output_size_bytes : Nat
  redaction_count : Nat
  redacted_types : List String
  execution_time_ms : Int
  status : String
  error_message : Option String
deriving Repr, DecidableEq

/-- `MAX_INPUT_LOG_LENGTH`. -/
def MAX_INPUT_LOG_LENGTH : Nat := 500

/-- `s.slice(0, n)` (JS counts UTF-16 units and Lean code points; they
agree on the data relevant here). -/
def jsSlice (s : String) (n : Nat) : String := ⟨s.data.take n⟩

/-- The sanitization step of `AuditLogger.log`: truncate oversized input
parameters and append the truncation marker. -/
def sanitizeEntry (e : AuditEntry) : AuditEntry :=
  { e with
    input_parameters :=
      if MAX_INPUT_LOG_LENGTH < e.input_parameters.length then
        jsSlice e.input_parameters MAX_INPUT_LOG_LENGTH ++ "...[truncated]"
      else e.input_parameters }

/-- `AuditLogger.log`: the records appended to the sink (empty when audit
is disabled, one sanitized record otherwise — each record is one atomic
write of one serialized line). -/
def auditLog (enabled : Bool) (e : AuditEntry) : List AuditEntry :=
  if enabled then [sanitizeEntry e] else []

/-! ## JSON serialization (`JSON.stringify`, as used by the wrapper)

Only the existence and length of the serialized text matter to the verified
claims; the escaping below covers the characters that occur in them. -/

/-- Escape one character of a JSON string literal. -/
def escChar (c : Char) : String :=
  if c == '"' then "\\\""
  else if c == '\\' then "\\\\"
  else if c == '\n' then "\\n"
  else if c == '\r' then "\\r"
  else if c == '\t' then "\\t"
  else String.singleton c

/-- Serialize a string literal. -/
def escapeJsonString (s : String) : String :=
  "\"" ++ String.join (s.data.map escChar) ++ "\""

mutual

/-- `JSON.stringify` (no spacing). -/
def jsonStringify : Json → String
  | .null => "null"
  | .bool true => "true"
  | .bool false => "false"
  | .num n => toString n
  | .str s => escapeJsonString s
  | .arr xs => "[" ++ stringifyArr xs ++ "]"
  | .obj kvs => "\x7b" ++ stringifyObj kvs ++ "\x7d"

/-- Comma-separated array elements. -/
def stringifyArr : List Json → String
  | [] => ""
  | [x] => jsonStringify x
  | x :: y :: xs => jsonStringify x ++ "," ++ stringifyArr (y :: xs)

/-- Comma-separated object fields. -/
def stringifyObj : List (String × Json) → String
  | [] => ""
  | [(k, v)] => escapeJsonString k ++ ":" ++ jsonStringify v
  | (k, v) :: kv :: kvs =>
    escapeJsonString k ++ ":" ++ jsonStringify v ++ "," ++ stringifyObj (kv :: kvs)

end

/-! ## Tool results and the secure pipeline orchestrator
(`src/lib/types.ts`, `src/lib/toolWrapper.ts`) -/

/-- The `ToolResult` discriminated union. -/
inductive ToolResult where
  | success (data : Json) (total : Option Int) (aggregations : Option Json)
  | error (error : String)
deriving Repr

/-- The JS object a `ToolResult` denotes (`type` is the discriminant;
absent optional fields are not materialized). -/
def encodeResult : ToolResult → Json
  | .success d t a =>
    .obj ([("type", .str "success"), ("data", d)] ++
      (match t with | some n => [("total", Json.num n)] | none => []) ++
      (match a with | some j => [("aggregations", j)] | none => []))
  | .error m => .obj [("type", .str "error"), ("error", .str m)]

/-- `a || b` for an optional string operand (empty strings are falsy). -/
def jsOrD (a : Option String) (b : String) : String :=
  match a with
  | some s => if s != "" then s else b
  | none => b

/-- The catch-block message priority of `createSecureTool.execute`:
`error.response?.data?.error?.reason || error.response?.data?.message ||
error.message || 'Unknown error'`. -/
def faultMessage (f : JsFault) : String :=
  jsOrD f.responseDataErrorReason
    (jsOrD f.responseDataMessage (jsOrD f.message "Unknown error"))

/-- The `type` discriminant of an encoded result object. -/
def jsonTag (j : Json) : Option String :=
  match getField j "type" with
  | some (.str t) => some t
  | _ => none

/-- What one pipeline invocation produces: the value returned to the caller
and the audit records written. -/
structure WrapperRun where
  finalResult : Json
  auditEntries : List AuditEntry
deriving Repr

/-- `createSecureTool(...).execute`: run the tool logic (`logic` is its
outcome: a result or a thrown fault), normalize faults into an error
result, conditionally redact (dismatch passes the whole success variant to
the handler, so the engine runs over the full encoded result object),
derive the audit fields from the final result's discriminant, and emit the
audit record.  `timestamp` and `executionTime` stand for the wall-clock
reads. -/
def wrapperExecute (cfg : ServerConfig) (toolId : String) (input : Json)
    (logic : Except JsFault ToolResult) (timestamp : String)
    (executionTime : Int) : WrapperRun :=
  let result : ToolResult :=
    match logic with
    | .ok r => r
    | .error f => .error (faultMessage f)
  let red : Json × Nat × List String :=
    match result with
    | .success _ _ _ =>
      if !cfg.piiRedactionEnabled then (encodeResult result, 0, [])
      else
        let r := redactPII (encodeResult result)
        (r.redactedData, r.redactionCount, r.redactedTypes)
    | .error _ => (encodeResult result, 0, [])
  let finalResult := red.1
  let statusErr : String × Option String :=
    if jsonTag finalResult == some "success" then ("success", none)
    else ("error",
      match getField finalResult "error" with
      | some (.str m) => some m
      | _ => none)
  let entry : AuditEntry :=
    { timestamp := timestamp
      tool_called := toolId
      input_parameters := jsonStringify input
      output_size_bytes := (jsonStringify finalResult).length
      redaction_count := red.2.1
      redacted_types := red.2.2
      execution_time_ms := executionTime
      status := statusErr.1
      error_message := statusErr.2 }
  ⟨finalResult, auditLog cfg.auditEnabled entry⟩

/-! ## Query classification and time-range merging
(`src/tools/kibanaSearch.ts`) -/

/-- The `QueryShape` discriminated union. -/
inductive QueryShape where
  | has_bool (bool : Json) (body : List (String × Json))
  | has_query (query : Json) (body : List (String × Json))
  | no_query (body : List (String × Json))
deriving Repr

/-- `classifyQuery(body)`: `body.query?.bool` truthy, else `body.query`
truthy, else no query. -/
def classifyQuery (body : List (String × Json)) : QueryShape :=
  match lookupField body "query" with
  | some q =>
    match getField q "bool" with
    | some b =>
      if jsTruthy b then .has_bool b body
      else if jsTruthy q then .has_query q body
      else .no_query body
    | none => if jsTruthy q then .has_query q body else .no_query body
  | none => .no_query body

/-- The injected `@timestamp` range filter. -/
def rangeFilter (time_range : String) : Json :=
  .obj [("range",
    .obj [("@timestamp",
      .obj [("gte", .str time_range), ("lte", .str "now")])])]

/-- The normalized existing filter slot of a bool clause:
`Array.isArray(bool.filter) ? bool.filter : bool.filter ? [bool.filter] : []`. -/
def existingFilters (b : Json) : List Json :=
  match getField b "filter" with
  | some (.arr l) => l
  | some v => if jsTruthy v then [v] else []
  | none => []

/-- The time-range merge of `kibanaSearchTool.execute` (applied when
`time_range` is truthy). -/
def mergeTimeRange (body : List (String × Json)) (time_range : String) :
    List (String × Json) :=
  let rf := rangeFilter time_range
  match classifyQuery body with
  | .has_bool b body =>
    setField body "query"
      (.obj [("bool",
        .obj (setField (spreadFields b) "filter" (.arr (existingFilters b ++ [rf]))))])
  | .has_query q body =>
    setField body "query"
      (.obj [("bool", .obj [("must", .arr [q]), ("filter", .arr [rf])])])
  | .no_query body =>
    setField body "query" (.obj [("bool", .obj [("filter", .arr [rf])])])

/-! ## Index listing and cluster discovery
(`src/tools/listIndices.ts`, `src/tools/discoverCluster.ts`)

Both tools issue the `_cat/indices` listing with the caller's raw pattern
(through the retry wrapper, modelled as one successful call answered by
`rawIndices`), then post-filter the response. -/

/-- The fields used from one `_cat/indices` response row. -/
structure CatIndexRow where
  index : String
  health : String
  status : String
  docsCount : String
  storeSize : String
deriving Repr, DecidableEq

/-- `IndexInfo` of listIndices.ts / the per-index record of
discoverCluster.ts before mapping attachment. -/
structure IndexInfo where
  index : String
  health : String
  status : String
  doc_count : String
  store_size : String
deriving Repr, DecidableEq

/-- Row projection done by both tools. -/
def toIndexInfo (r : CatIndexRow) : IndexInfo :=
  ⟨r.index, r.health, r.status, r.docsCount, r.storeSize⟩

/-- `s.startsWith('.')`: the first character is a dot. -/
def startsWithDot (s : String) : Bool :=
  match s.data with
  | c :: _ => c == '.'
  | [] => false

/-- The shared hidden-index filter (`!idx.index.startsWith('.')`) and
allow-list post-filter of both tools. -/
def postFilterIndices (cfg : ServerConfig) (include_hidden : Bool)
    (rows : List CatIndexRow) : Except JsFault (List IndexInfo) :=
  let indices0 := rows.map toIndexInfo
  let indices1 :=
    if !include_hidden then
      indices0.filter (fun i => !(startsWithDot i.index))
    else indices0
  if cfg.allowedIndexPatterns.length > 0 then
    jsFilter
      (fun idx => jsSome (fun p => globMatchE p idx.index) cfg.allowedIndexPatterns)
      indices1
  else .ok indices1

/-- `listIndicesTool.execute` with the listing response as a parameter. -/
def listIndicesExecute (cfg : ServerConfig) (pattern : String)
    (include_hidden : Bool) (rawIndices : List CatIndexRow) :
    Except JsFault (List IndexInfo × Nat) × List BackendCall :=
  match validateIndexName pattern with
  | .error e => (.error e, [])
  | .ok _ =>
    match postFilterIndices cfg include_hidden rawIndices with
    | .error e => (.error e, [BackendCall.catIndicesCall pattern])
    | .ok indices => (.ok (indices, indices.length), [BackendCall.catIndicesCall pattern])

/-- `FieldMapping` (source field name: `type`). -/
structure FieldMapping where
  field : String
  ftype : String
deriving Repr, DecidableEq

/-- The `MappingFetch` discriminated union of discoverCluster.ts. -/
inductive MappingFetch where
  | fetched (fields : List FieldMapping)
  | failed
deriving Repr

/-- The accumulator loop behind `deduplicateFields` (first occurrence of a
field path wins, insertion order preserved). -/
def dedupGo (acc : List FieldMapping) : List FieldMapping → List FieldMapping
  | [] => acc.reverse
  | f :: rest =>
    if acc.any (fun g => g.field == f.field) then dedupGo acc rest
    else dedupGo (f :: acc) rest

/-- `deduplicateFields(fields)`. -/
def deduplicateFields (fs : List FieldMapping) : List FieldMapping :=
  dedupGo [] fs

/-- `parseInt(s, 10) || 0`: leading whitespace, optional sign, leading
digit run; no digits (NaN) collapses to 0. -/
def parseIntOr0 (s : String) : Int :=
  let t := s.data.dropWhile isJsSpace
  let core : Bool × List Char :=
    match t with
    | '-' :: rest => (true, rest)
    | '+' :: rest => (false, rest)
    | _ => (false, t)
  let ds := core.2.takeWhile Char.isDigit
  if ds.isEmpty then 0
  else
    let v : Int := Int.ofNat (ds.foldl (fun acc c => acc * 10 + (c.toNat - 48)) 0)
    if core.1 then -v else v

/-- The descending doc-count order of discoverCluster.ts's comparator
`(countB || 0) - (countA || 0)` (JS `Array.prototype.sort` is stable, as is
insertion sort). -/
def docCountGE (a b : IndexInfo) : Prop :=
  parseIntOr0 b.doc_count ≤ parseIntOr0 a.doc_count

instance : DecidableRel docCountGE := fun a b =>
  inferInstanceAs (Decidable (parseIntOr0 b.doc_count ≤ parseIntOr0 a.doc_count))

/-- One discovered index of the cluster-discovery response. -/
structure DiscoveredIndex where
  index : String
  health : String
  status : String
  doc_count : String
  store_size : String
  fields : List FieldMapping
deriving Repr, DecidableEq

/-- `cluster_summary` of the cluster-discovery response. -/
structure ClusterSummary where
  total_indices : Nat
  discovered : Nat
deriving Repr, DecidableEq

/-- `ClusterDiscovery`, the data payload of discoverCluster.ts. -/
structure ClusterDiscovery where
  cluster_summary : ClusterSummary
  indices : List DiscoveredIndex
deriving Repr, DecidableEq

/-- `discoverClusterTool.execute` with the listing response and the mapping
fetches as parameters.  `mappingOf` abstracts the per-index
`getMapping → flattenProperties` pipeline together with its `.catch`
(every failure, including an allow-list rejection inside `getMapping`,
collapses to `failed`, which yields an empty field list); mapping flattening
itself is out of the verified core. -/
def discoverExecute (cfg : ServerConfig) (pattern : String)
    (include_hidden : Bool) (max_indices : Nat) (rawIndices : List CatIndexRow)
    (mappingOf : String → MappingFetch) :
    Except JsFault ClusterDiscovery × List BackendCall :=
  match validateIndexName pattern with
  | .error e => (.error e, [])
  | .ok _ =>
    match postFilterIndices cfg include_hidden rawIndices with
    | .error e => (.error e, [BackendCall.catIndicesCall pattern])
    | .ok indices =>
      let totalIndices := indices.length
      let sorted := List.insertionSort docCountGE indices
      let capped := sorted.take max_indices
      let discovered := capped.map fun idx =>
        let fields :=
          match mappingOf idx.index with
          | .fetched fs => deduplicateFields fs
          | .failed => []
        DiscoveredIndex.mk idx.index idx.health idx.status idx.doc_count
          idx.store_size fields
      (.ok ⟨⟨totalIndices, discovered.length⟩, discovered⟩,
        [BackendCall.catIndicesCall pattern])

/-! ## Card-like sequences for the amended credit-card claim

Spec-side constructions: an arbitrary 16-digit sequence grouped 4-4-4-4
with one uniform optional separator, and the masked form the claim
requires. -/

/-- Digit characters. -/
def dch : Fin 10 → Char
  | 0 => '0'
  | 1 => '1'
  | 2 => '2'
  | 3 => '3'
  | 4 => '4'
  | 5 => '5'
  | 6 => '6'
  | 7 => '7'
  | 8 => '8'
  | 9 => '9'

/-- The optional uniform group separator of a card-like sequence. -/
inductive CardSep where
  | nosep
  | space
  | hyphen
deriving Repr, DecidableEq

/-- The separator text between groups. -/
def sepChars : CardSep → List Char
  | .nosep => []
  | .space => [' ']
  | .hyphen => ['-']

/-- The sixteen digits of the sequence, as characters. -/
def cardDigits (d : Fin 16 → Fin 10) : List Char :=
  [dch (d 0), dch (d 1), dch (d 2), dch (d 3),
   dch (d 4), dch (d 5), dch (d 6), dch (d 7),
   dch (d 8), dch (d 9), dch (d 10), dch (d 11),
   dch (d 12), dch (d 13), dch (d 14), dch (d 15)]

/-- A 16-digit card-like sequence grouped 4-4-4-4 with a uniform optional
separator, standing alone as a string. -/
def cardChars (d : Fin 16 → Fin 10) (sep : CardSep) : List Char :=
  [dch (d 0), dch (d 1), dch (d 2), dch (d 3)] ++ sepChars sep ++
  [dch (d 4), dch (d 5), dch (d 6), dch (d 7)] ++ sepChars sep ++
  [dch (d 8), dch (d 9), dch (d 10), dch (d 11)] ++ sepChars sep ++
  [dch (d 12), dch (d 13), dch (d 14), dch (d 15)]

/-- The masked form the claim requires: `*` runs for the three leading
groups, the separator preserved, the last four digits visible. -/
def cardMasked (d : Fin 16 → Fin 10) (sep : CardSep) : List Char :=
  ['*', '*', '*', '*'] ++ sepChars sep ++
  ['*', '*', '*', '*'] ++ sepChars sep ++
  ['*', '*', '*', '*'] ++ sepChars sep ++
  [dch (d 12), dch (d 13), dch (d 14), dch (d 15)]

/-- A value returned to the caller is a well-formed outcome: an object
tagged `success`, or one tagged `error` carrying a string message. -/
def wellFormedOutcome (j : Json) : Prop :=
  jsonTag j = some "success" ∨
    ∃ m : String, jsonTag j = some "error" ∧ getField j "error" = some (.str m)

/-!
# Theorems

One theorem (plus, where required, a witness or counterexample) per claim
of the specification audit.
-/

/-! ### Never-un-masking: the matchers never consume a mask character

Each pattern's regex only matches characters from classes that exclude
`*`, so a replacement pass can only add mask characters, never remove
them.  The lemmas below establish, for every matcher, that a match
decomposes its input and contains no `*`. -/

/-- Number of mask characters in a string. -/
def starCount (s : List Char) : Nat := s.count '*'

mutual

/-- Number of mask characters in all strings of a value. -/
def starCountJ : Json → Nat
  | .str s => starCount s.data
  | .arr xs => starCountArr xs
  | .obj kvs => starCountObj kvs
  | _ => 0

/-- Mask characters across an array. -/
def starCountArr : List Json → Nat
  | [] => 0
  | x :: xs => starCountJ x + starCountArr xs

/-- Mask characters across an object's values. -/
def starCountObj : List (String × Json) → Nat
  | [] => 0
  | (_, v) :: kvs => starCountJ v + starCountObj kvs

end

/-- A matcher is sound when every match splits its input and contains no
mask character. -/
def MatcherOK (M : Option Char → List Char → Option (List Char × List Char)) : Prop :=
  ∀ prev s m r, M prev s = some (m, r) → s = m ++ r ∧ '*' ∉ m

/-- C1 (code bug evidence): `withRetry` retries an HTTP 500 failure.  With
3 configured attempts and a call that fails with status 500 once and then
succeeds, the wrapper sleeps once (the base delay) and returns the second
attempt's success after 2 calls — the 500 is treated as retryable, although
the claim (and the module's own comments, "Only retry on 429, 503, or
network errors") say any non-429/503 4xx/5xx status is terminal and
propagated immediately. -/
theorem C1_withRetry_retries_http_500 :
    (withRetry { retryAttempts := 3, retryDelayMs := 1000 }
        (fun i => if i == 0 then .error { responseStatus := some 500 }
                  else .ok (Json.str "hit"))).result = .ok (Json.str "hit") ∧
    (withRetry { retryAttempts := 3, retryDelayMs := 1000 }
        (fun i => if i == 0 then .error { responseStatus := some 500 }
                  else .ok (Json.str "hit"))).calls = 2 ∧
    (withRetry { retryAttempts := 3, retryDelayMs := 1000 }
        (fun i => if i == 0 then .error { responseStatus := some 500 }
                  else .ok (Json.str "hit"))).sleeps = [1000] :=
  ⟨rfl, rfl, rfl⟩

/-- C2 (counterexample): `4222222222222` is a card-like numeric sequence of
13 digits that passes the Luhn checksum, yet `Redact` leaves it unmodified
with a redaction count of 0 — the engine's pattern only ever matches
16-digit sequences grouped 4-4-4-4, not the claimed 13–19 digit range. -/
theorem C2_counterexample :
    luhnCheck "4222222222222".data = true ∧
    "4222222222222".length = 13 ∧
    redactString "4222222222222" = ("4222222222222", 0, []) := by
  exact ⟨by decide, by decide, by decide⟩

/-- C5 (counterexample): for the `HasBoolClause` body
`{query: {bool: {filter: false}}}`, the filter slot holds the single
non-list value `false`, but merging a time-bound does not normalize it to
the one-element list `[false]`: the falsy value is dropped and the merged
filter list contains only the new range entry, so the pre-existing filter
entry is not preserved. -/
theorem C5_counterexample :
    (match classifyQuery [("query", Json.obj [("bool", Json.obj [("filter", Json.bool false)])])] with
      | .has_bool _ _ => true
      | _ => false) = true ∧
    mergeTimeRange [("query", Json.obj [("bool", Json.obj [("filter", Json.bool false)])])]
        "now-24h" =
      [("query", Json.obj [("bool",
        Json.obj [("filter", Json.arr [rangeFilter "now-24h"])])])] :=
  ⟨rfl, rfl⟩

/-- Updating one key leaves every other key's binding unchanged. -/
lemma lookupField_setField_ne (kvs : List (String × Json)) (k k2 : String)
    (v : Json) (h : k2 ≠ k) :
    lookupField (setField kvs k v) k2 = lookupField kvs k2 := by
  induction kvs with
  | nil =>
    have hbeq : (k == k2) = false := by
      simp only [beq_eq_false_iff_ne]
      exact fun hc => h hc.symm
    simp [setField, lookupField, hbeq]
  | cons kv rest ih =>
    obtain ⟨k1, w⟩ := kv
    by_cases h1 : k1 == k
    · simp only [setField, h1, if_pos]
      by_cases h2 : k1 == k2
      · have : k2 = k := by
          have e1 : k1 = k := by simpa using h1
          have e2 : k1 = k2 := by simpa using h2
          rw [← e2, e1]
        exact absurd this h
      · simp [lookupField, h2]
    · simp only [setField, h1, Bool.false_eq_true, if_false]
      by_cases h2 : k1 == k2
      · simp [lookupField, h2]
      · simp [lookupField, h2, ih]

/-- Updating one key binds it to the new value. -/
lemma lookupField_setField_self (kvs : List (String × Json)) (k : String)
    (v : Json) : lookupField (setField kvs k v) k = some v := by
  induction kvs with
  | nil => simp [setField, lookupField]
  | cons kv rest ih =>
    obtain ⟨k1, w⟩ := kv
    by_cases h1 : k1 == k
    · simp [setField, h1, lookupField]
    · simp [setField, h1, lookupField, ih]

/-- C5 (amended): for every query body classified `HasBoolClause` whose
bool clause is an object, merging a time-bound leaves all non-`query`
top-level keys unchanged and rewrites the clause's filter slot to a list
`L` that appends exactly one range entry: `L = l ++ [range]` when the slot
held the list `l` (every pre-existing entry preserved), `L = [v, range]`
when it held a single *truthy* non-list value `v` (normalized to a
one-element list first), and `L = [range]` when it was absent.  (A falsy
single value is dropped — see the counterexample.) -/
theorem C5_bool_merge_amended (body : List (String × Json))
    (b : List (String × Json)) (time_range : String)
    (hclass : classifyQuery body = QueryShape.has_bool (.obj b) body) :
    (∀ k, k ≠ "query" →
      lookupField (mergeTimeRange body time_range) k = lookupField body k) ∧
    (∃ L : List Json,
      lookupField (mergeTimeRange body time_range) "query" =
        some (.obj [("bool", .obj (setField b "filter" (.arr L)))]) ∧
      (∀ l, lookupField b "filter" = some (.arr l) →
        L = l ++ [rangeFilter time_range]) ∧
      (∀ v, lookupField b "filter" = some v → (∀ l2, v ≠ .arr l2) →
        jsTruthy v = true → L = [v, rangeFilter time_range]) ∧
      (lookupField b "filter" = none → L = [rangeFilter time_range])) := by
  have hmerge : mergeTimeRange body time_range =
      setField body "query" (.obj [("bool", .obj (setField b "filter"
        (.arr (existingFilters (.obj b) ++ [rangeFilter time_range]))))]) := by
    unfold mergeTimeRange
    rw [hclass]
    rfl
  constructor
  · intro k hk
    rw [hmerge]
    exact lookupField_setField_ne body "query" k _ hk
  · refine ⟨existingFilters (.obj b) ++ [rangeFilter time_range], ?_, ?_, ?_, ?_⟩
    · rw [hmerge]
      exact lookupField_setField_self body "query" _
    · intro l hl
      unfold existingFilters
      rw [show getField (Json.obj b) "filter" = lookupField b "filter" from rfl, hl]
    · intro v hv hnotarr htruthy
      unfold existingFilters
      rw [show getField (Json.obj b) "filter" = lookupField b "filter" from rfl, hv]
      rcases v with _ | b0 | n | s | xs | kvs
      · simp [htruthy]
      · simp [htruthy]
      · simp [htruthy]
      · simp [htruthy]
      · exact absurd rfl (hnotarr xs)
      · simp [htruthy]
    · intro hnone
      unfold existingFilters
      rw [show getField (Json.obj b) "filter" = lookupField b "filter" from rfl, hnone]
      rfl

/-- C5 (witness for the amended theorem): a body with a bool clause, a
one-element filter list and a `size` key — the non-query key survives the
merge and the filter list gains exactly the range entry. -/
theorem C5_bool_merge_amended_witness :
    lookupField (mergeTimeRange
      [("query", Json.obj [("bool", Json.obj [("filter", Json.arr [Json.str "f1"])])]),
       ("size", Json.num 5)] "now-24h") "size" = some (Json.num 5) ∧
    lookupField (mergeTimeRange
      [("query", Json.obj [("bool", Json.obj [("filter", Json.arr [Json.str "f1"])])]),
       ("size", Json.num 5)] "now-24h") "query" =
      some (.obj [("bool", .obj [("filter",
        .arr [Json.str "f1", rangeFilter "now-24h"])])]) := by
  have h := C5_bool_merge_amended
    [("query", Json.obj [("bool", Json.obj [("filter", Json.arr [Json.str "f1"])])]),
     ("size", Json.num 5)]
    [("filter", Json.arr [Json.str "f1"])] "now-24h" rfl
  obtain ⟨h1, L, h2, h3, _, _⟩ := h
  refine ⟨h1 "size" (by decide), ?_⟩
  rw [h2, h3 [Json.str "f1"] rfl]
  rfl

set_option maxRecDepth 4000 in
/-- C6 (counterexample): an audit entry whose serialized input parameters
are 501 characters long is logged with an `input_parameters` value of 514
characters (a 500-character prefix plus the 14-character marker
`...[truncated]`), exceeding the claimed 500-character cap. -/
theorem C6_counterexample :
    (auditLog true
        { timestamp := "2024-01-01T00:00:00.000Z", tool_called := "test_tool",
          input_parameters := ⟨List.replicate 501 'x'⟩, output_size_bytes := 0,
          redaction_count := 0, redacted_types := [], execution_time_ms := 0,
          status := "success", error_message := none }).map
      (fun e => e.input_parameters.length) = [514] ∧ ¬ (514 ≤ 500) := by
  exact ⟨by decide, by decide⟩

/-- C6 (amended): every audit record emitted by `AuditLogger.log` carries
an `input_parameters` value of at most 514 characters; inputs over the
500-character cap are logged as their own 500-character prefix
(`slice(0, 500)`, embedded as `jsSlice`) followed by the truncation
marker, and inputs within the cap pass through unchanged. -/
theorem C6_truncation_amended (enabled : Bool) (e : AuditEntry) :
    ∀ le ∈ auditLog enabled e,
      le.input_parameters.length ≤ 514 ∧
      (if MAX_INPUT_LOG_LENGTH < e.input_parameters.length then
        le.input_parameters =
          jsSlice e.input_parameters MAX_INPUT_LOG_LENGTH ++ "...[truncated]" ∧
        (jsSlice e.input_parameters MAX_INPUT_LOG_LENGTH).length = 500
      else le.input_parameters = e.input_parameters) := by
  intro le hle
  have hle2 : le = sanitizeEntry e := by
    unfold auditLog at hle
    by_cases h : enabled = true
    · simp [h] at hle; exact hle
    · simp [eq_false_of_ne_true h] at hle
  subst hle2
  unfold sanitizeEntry MAX_INPUT_LOG_LENGTH
  by_cases h : 500 < e.input_parameters.length
  · have hlen : (jsSlice e.input_parameters 500).length = 500 := by
      show (e.input_parameters.data.take 500).length = 500
      rw [List.length_take]
      exact Nat.min_eq_left (Nat.le_of_lt h)
    refine ⟨?_, ?_⟩
    · simp only [h, if_pos]
      have h1 : (jsSlice e.input_parameters 500 ++ "...[truncated]").length =
          (jsSlice e.input_parameters 500).length + ("...[truncated]" : String).length :=
        String.length_append _ _
      have h2 : ("...[truncated]" : String).length = 14 := by decide
      omega
    · simp only [MAX_INPUT_LOG_LENGTH, h, if_pos]
      exact ⟨trivial, hlen⟩
  · simp only [h, if_neg, if_false]
    constructor
    · simpa using Nat.le_trans (Nat.le_of_not_lt h) (by omega)
    · simp [MAX_INPUT_LOG_LENGTH, h]

set_option maxRecDepth 4000 in
/-- C6 (witness for the amended theorem): instantiated at an enabled logger
and a concrete 501-character input. -/
theorem C6_truncation_amended_witness :
    (sanitizeEntry
      { timestamp := "", tool_called := "t",
        input_parameters := ⟨List.replicate 501 'y'⟩, output_size_bytes := 0,
        redaction_count := 0, redacted_types := [], execution_time_ms := 0,
        status := "success", error_message := none }).input_parameters.length ≤ 514 :=
  (C6_truncation_amended true
    { timestamp := "", tool_called := "t",
      input_parameters := ⟨List.replicate 501 'y'⟩, output_size_bytes := 0,
      redaction_count := 0, redacted_types := [], execution_time_ms := 0,
      status := "success", error_message := none }
    (sanitizeEntry
      { timestamp := "", tool_called := "t",
        input_parameters := ⟨List.replicate 501 'y'⟩, output_size_bytes := 0,
        redaction_count := 0, redacted_types := [], execution_time_ms := 0,
        status := "success", error_message := none })
    (by simp [auditLog])).1

/-- C7: the query body `{match_all: {}}` has no `query` key, so it is
classified `NoClause`, and merging the time-bound `now-24h` injects
`query = {bool: {filter: [{range: {@timestamp: {gte: now-24h, lte:
now}}}]}}` while preserving the original top-level key `match_all`. -/
theorem C7_noclause_merge :
    (match classifyQuery [("match_all", Json.obj [])] with
      | .no_query _ => true
      | _ => false) = true ∧
    mergeTimeRange [("match_all", Json.obj [])] "now-24h" =
      [("match_all", Json.obj []),
       ("query", Json.obj [("bool", Json.obj [("filter", Json.arr
         [Json.obj [("range", Json.obj [("@timestamp", Json.obj
           [("gte", Json.str "now-24h"), ("lte", Json.str "now")])])]])])])] :=
  ⟨rfl, rfl⟩

/-- The engine leaves the literal discriminant string `success` unchanged
(no pattern matches it), so redacting an encoded success result keeps its
tag and object shape. -/
lemma redactJson_success_obj (kvs : List (String × Json)) :
    redactJson (.obj (("type", Json.str "success") :: kvs)) [] =
      (.obj (("type", Json.str "success") :: (redactObj kvs []).1),
        (redactObj kvs []).2.1, (redactObj kvs []).2.2) := by
  have h1 : redactObj (("type", Json.str "success") :: kvs) [] =
      (("type", Json.str "success") :: (redactObj kvs []).1,
        0 + (redactObj kvs []).2.1, (redactObj kvs []).2.2) := rfl
  simp [redactJson, h1]

/-- Redacting an encoded success result preserves the `success` tag. -/
lemma jsonTag_redact_success (d : Json) (t : Option Int) (a : Option Json) :
    jsonTag (redactPII (encodeResult (ToolResult.success d t a))).redactedData =
      some "success" := by
  show jsonTag (redactJson (encodeResult (ToolResult.success d t a)) []).1 = _
  have he : encodeResult (ToolResult.success d t a) =
      .obj (("type", Json.str "success") :: ("data", d) ::
        ((match t with | some n => [("total", Json.num n)] | none => []) ++
         (match a with | some j => [("aggregations", j)] | none => []))) := rfl
  rw [he, redactJson_success_obj]
  rfl

/-- C3: every fault thrown by the supplied operation logic is caught and
normalized into a `Failure` outcome whose message is chosen in priority
order — the structured backend error reason, else the generic backend
error message, else the raw fault's message, else the fixed fallback
`Unknown error` (empty strings are falsy and skipped) — and on every path
(success or fault, redaction on or off) the caller receives a well-formed
tagged outcome, never an uncaught fault. -/
theorem C3_fault_normalization (cfg : ServerConfig) (toolId : String)
    (input : Json) (ts : String) (dur : Int) :
    (∀ f : JsFault,
      (wrapperExecute cfg toolId input (.error f) ts dur).finalResult =
        Json.obj [("type", Json.str "error"), ("error", Json.str
          (if f.responseDataErrorReason.getD "" != "" then
            f.responseDataErrorReason.getD ""
          else if f.responseDataMessage.getD "" != "" then
            f.responseDataMessage.getD ""
          else if f.message.getD "" != "" then f.message.getD ""
          else "Unknown error"))]) ∧
    (∀ logic : Except JsFault ToolResult,
      wellFormedOutcome (wrapperExecute cfg toolId input logic ts dur).finalResult) := by
  constructor
  · intro f
    have hmsg : faultMessage f =
        (if f.responseDataErrorReason.getD "" != "" then
          f.responseDataErrorReason.getD ""
        else if f.responseDataMessage.getD "" != "" then
          f.responseDataMessage.getD ""
        else if f.message.getD "" != "" then f.message.getD ""
        else "Unknown error") := by
      rcases f with ⟨st, r, m, msg⟩
      cases r <;> cases m <;> cases msg <;> simp [faultMessage, jsOrD]
    show Json.obj [("type", Json.str "error"), ("error", Json.str (faultMessage f))] = _
    rw [hmsg]
  · intro logic
    rcases logic with f | r
    · exact .inr ⟨faultMessage f, rfl, rfl⟩
    · rcases r with ⟨d, t, a⟩ | m
      · by_cases hp : cfg.piiRedactionEnabled
        · refine .inl ?_
          have : (wrapperExecute cfg toolId input (.ok (.success d t a)) ts dur).finalResult =
              (redactPII (encodeResult (ToolResult.success d t a))).redactedData := by
            simp [wrapperExecute, hp]
          rw [this]
          exact jsonTag_redact_success d t a
        · refine .inl ?_
          have : (wrapperExecute cfg toolId input (.ok (.success d t a)) ts dur).finalResult =
              encodeResult (ToolResult.success d t a) := by
            simp [wrapperExecute, hp]
          rw [this]
          rfl
      · exact .inr ⟨m, rfl, rfl⟩

/-- C4: fixed step order and audit invariant of the orchestrator.  For any
configuration and any logic outcome: (i) exactly one audit entry is
emitted when auditing is enabled and none otherwise, regardless of whether
the outcome is a success or a failure; (ii) the emitted entry's status and
error message are derived from the final outcome's tag, and its redaction
count/categories are zero/empty whenever redaction is disabled or the
outcome is a failure; (iii) when the logic succeeds and redaction is
enabled, the value returned to the caller is the redacted copy of the
success result and the emitted entry carries that redaction's
count/categories. -/
theorem C4_pipeline_audit_invariant (cfg : ServerConfig) (toolId : String)
    (input : Json) (ts : String) (dur : Int) (logic : Except JsFault ToolResult) :
    (wrapperExecute cfg toolId input logic ts dur).auditEntries.length =
      (if cfg.auditEnabled then 1 else 0) ∧
    (∀ e ∈ (wrapperExecute cfg toolId input logic ts dur).auditEntries,
      e.status = (match logic with
        | .ok (.success _ _ _) => "success"
        | .ok (.error _) => "error"
        | .error _ => "error") ∧
      e.error_message = (match logic with
        | .ok (.success _ _ _) => none
        | .ok (.error m) => some m
        | .error f => some (faultMessage f)) ∧
      ((cfg.piiRedactionEnabled = false ∨
          (match logic with
            | .ok (.success _ _ _) => False
            | _ => True)) →
        e.redaction_count = 0 ∧ e.redacted_types = [])) ∧
    (∀ d t a, logic = .ok (.success d t a) → cfg.piiRedactionEnabled = true →
      (wrapperExecute cfg toolId input logic ts dur).finalResult =
        (redactPII (encodeResult (ToolResult.success d t a))).redactedData ∧
      ∀ e ∈ (wrapperExecute cfg toolId input logic ts dur).auditEntries,
        e.redaction_count =
          (redactPII (encodeResult (ToolResult.success d t a))).redactionCount ∧
        e.redacted_types =
          (redactPII (encodeResult (ToolResult.success d t a))).redactedTypes) := by
  refine ⟨?_, ?_, ?_⟩
  · by_cases ha : cfg.auditEnabled <;> simp [wrapperExecute, auditLog, ha]
  · intro e he
    by_cases ha : cfg.auditEnabled
    · rcases logic with f | r
      · simp only [wrapperExecute, auditLog, ha, if_pos, List.mem_singleton] at he
        subst he
        exact ⟨rfl, rfl, fun _ => ⟨rfl, rfl⟩⟩
      · rcases r with ⟨d, t, a⟩ | m
        · by_cases hp : cfg.piiRedactionEnabled
          · have htag := jsonTag_redact_success d t a
            simp only [wrapperExecute, auditLog, ha, hp, Bool.not_true,
              Bool.false_eq_true, if_false, if_pos, List.mem_singleton] at he
            subst he
            refine ⟨?_, ?_, ?_⟩
            · simp [sanitizeEntry, htag]
            · simp [sanitizeEntry, htag]
            · intro hcase
              rcases hcase with hfalse | hfalse
              · rw [hp] at hfalse; cases hfalse
              · cases hfalse
          · have hp2 : cfg.piiRedactionEnabled = false := by
              simpa using hp
            simp only [wrapperExecute, auditLog, ha, hp2, Bool.not_false,
              if_pos, List.mem_singleton] at he
            subst he
            exact ⟨rfl, rfl, fun _ => ⟨rfl, rfl⟩⟩
        · simp only [wrapperExecute, auditLog, ha, if_pos, List.mem_singleton] at he
          subst he
          exact ⟨rfl, rfl, fun _ => ⟨rfl, rfl⟩⟩
    · simp [wrapperExecute, auditLog, ha] at he
  · intro d t a hl hp
    subst hl
    refine ⟨by simp [wrapperExecute, hp], ?_⟩
    intro e he
    by_cases ha : cfg.auditEnabled
    · simp only [wrapperExecute, auditLog, ha, hp, Bool.not_true,
        Bool.false_eq_true, if_false, if_pos, List.mem_singleton] at he
      subst he
      exact ⟨rfl, rfl⟩
    · simp [wrapperExecute, auditLog, ha] at he

/-- C4 (witness): with audit and redaction enabled and a logic success
carrying a card number, the value returned to the caller is the redacted
copy — masked before it is observable. -/
theorem C4_pipeline_audit_invariant_witness :
    (wrapperExecute { auditEnabled := true, piiRedactionEnabled := true }
        "kibana_search" (Json.obj [])
        (.ok (.success (Json.str "4111 1111 1111 1111") none none))
        "2024-01-01T00:00:00.000Z" 7).finalResult =
      Json.obj [("type", Json.str "success"),
        ("data", Json.str "**** **** **** 1111")] := by
  have h := (C4_pipeline_audit_invariant
    { auditEnabled := true, piiRedactionEnabled := true } "kibana_search"
    (Json.obj []) "2024-01-01T00:00:00.000Z" 7
    (.ok (.success (Json.str "4111 1111 1111 1111") none none))).2.2
    (Json.str "4111 1111 1111 1111") none none rfl rfl
  exact h.1.trans rfl

/-- Under the no-match hypotheses, the `some()` scan of the allow-list
either completes with `false` or propagates a thrown `SyntaxError` from a
malformed pattern — it never returns `true`. -/
lemma jsSome_glob_not_true (v : String) (L : List String)
    (h : ∀ p ∈ L, jsGlobMatch p v ≠ some true) :
    jsSome (fun p => globMatchE p v) L = .ok false ∨
      ∃ e, jsSome (fun p => globMatchE p v) L = .error e := by
  induction L with
  | nil => exact .inl rfl
  | cons p ps ih =>
    have hp := h p (List.mem_cons_self p ps)
    have hrest := ih (fun q hq => h q (List.mem_cons_of_mem p hq))
    cases hg : jsGlobMatch p v with
    | none =>
      have hE : globMatchE p v = .error (mkError "SyntaxError: Invalid regular expression") := by
        simp [globMatchE, hg]
      refine .inr ⟨mkError "SyntaxError: Invalid regular expression", ?_⟩
      rw [jsSome, hE]
      rfl
    | some b =>
      cases b with
      | true => exact absurd hg hp
      | false =>
        have hE : globMatchE p v = .ok false := by simp [globMatchE, hg]
        have hstep : jsSome (fun p => globMatchE p v) (p :: ps) =
            jsSome (fun p => globMatchE p v) ps := by
          rw [jsSome, hE]
          rfl
        rcases hrest with h1 | ⟨e, h2⟩
        · exact .inl (hstep.trans h1)
        · exact .inr ⟨e, hstep.trans h2⟩

/-- With a non-empty allow-list that the index matches nowhere,
`validateIndex` throws. -/
lemma validateIndex_rejects (cfg : ServerConfig) (index : String)
    (hne : cfg.allowedIndexPatterns ≠ [])
    (hnomatch : ∀ p ∈ cfg.allowedIndexPatterns, jsGlobMatch p index ≠ some true) :
    ∃ e, validateIndex cfg index = .error e := by
  unfold validateIndex validateIndexName
  by_cases hv : validIndexName index
  · have hlen : 0 < cfg.allowedIndexPatterns.length := by
      cases hL : cfg.allowedIndexPatterns with
      | nil => exact absurd hL hne
      | cons a as => simp [hL]
    rcases jsSome_glob_not_true index cfg.allowedIndexPatterns hnomatch with h1 | ⟨e, h2⟩
    · exact ⟨mkError ("Index " ++ index ++ " is not in the allowed index patterns"),
        by simp [hv, hlen, h1, Except.bind]⟩
    · exact ⟨e, by simp [hv, hlen, h2, Except.bind]⟩
  · exact ⟨mkError ("Invalid index name " ++ index),
      by simp [hv, Except.bind]⟩

/-- C8: access-scope enforcement of the search and mapping operations.
When the configured allow-list is non-empty and the resource name
glob-matches no entry, both operations reject the name and issue no
backend HTTP call; when the allow-list is empty, `validateIndex` accepts
any name passing the character-set validation, so access is
unrestricted. -/
theorem C8_scope_enforcement (cfg : ServerConfig)
    (http : Nat → BackendCall → Except JsFault Json) (index : String)
    (body : Json) (size : Int)
    (hne : cfg.allowedIndexPatterns ≠ [])
    (hnomatch : ∀ p ∈ cfg.allowedIndexPatterns, jsGlobMatch p index ≠ some true) :
    ((∃ e, (searchES cfg http index body size).1 = .error (some e)) ∧
      (searchES cfg http index body size).2 = []) ∧
    ((∃ e, (getMappingES cfg http index).1 = .error (some e)) ∧
      (getMappingES cfg http index).2 = []) ∧
    (∀ cfg2 : ServerConfig, cfg2.allowedIndexPatterns = [] →
      validIndexName index = true → validateIndex cfg2 index = .ok ()) := by
  obtain ⟨e, he⟩ := validateIndex_rejects cfg index hne hnomatch
  refine ⟨⟨⟨e, ?_⟩, ?_⟩, ⟨⟨e, ?_⟩, ?_⟩, ?_⟩
  · simp [searchES, he]
  · simp [searchES, he]
  · simp [getMappingES, he]
  · simp [getMappingES, he]
  · intro cfg2 hempty hvalid
    simp [validateIndex, validateIndexName, hvalid, hempty, Except.bind]

/-- C8 (witness): allow-list `logs-*`, index `secret`: the search and
mapping operations issue no backend call, while an empty allow-list leaves
the same name unrestricted. -/
theorem C8_scope_enforcement_witness :
    (searchES { allowedIndexPatterns := ["logs-*"] } (fun _ _ => .ok .null)
        "secret" Json.null 10).2 = [] ∧
    (getMappingES { allowedIndexPatterns := ["logs-*"] } (fun _ _ => .ok .null)
        "secret").2 = [] ∧
    validateIndex { allowedIndexPatterns := [] } "secret" = .ok () := by
  have h := C8_scope_enforcement { allowedIndexPatterns := ["logs-*"] }
    (fun _ _ => .ok .null) "secret" Json.null 10 (by simp)
    (by decide)
  exact ⟨h.1.2, h.2.1.2, h.2.2 { allowedIndexPatterns := [] } rfl (by decide)⟩

/-- Elements surviving `jsFilter` come from the input and satisfied the
predicate with `true`. -/
lemma jsFilter_mem {α : Type} (f : α → Except JsFault Bool) (l r : List α)
    (h : jsFilter f l = .ok r) : ∀ x ∈ r, x ∈ l ∧ f x = .ok true := by
  induction l generalizing r with
  | nil =>
    cases h
    intro x hx
    cases hx
  | cons a as ih =>
    intro x hx
    cases hfa : f a with
    | error e => rw [jsFilter, hfa] at h; cases h
    | ok b =>
      cases hrest : jsFilter f as with
      | error e =>
        rw [jsFilter, hfa] at h
        simp [Except.bind, hrest, Except.map] at h
      | ok rs =>
        rw [jsFilter, hfa] at h
        simp only [Except.bind, hrest, Except.map] at h
        cases b with
        | true =>
          cases h
          rcases List.mem_cons.mp hx with rfl | hx2
          · exact ⟨List.mem_cons_self _ _, hfa⟩
          · obtain ⟨h1, h2⟩ := ih rs hrest x hx2
            exact ⟨List.mem_cons_of_mem _ h1, h2⟩
        | false =>
          cases h
          obtain ⟨h1, h2⟩ := ih rs hrest x hx
          exact ⟨List.mem_cons_of_mem _ h1, h2⟩

/-- A `some()` scan returning `true` found a witness element. -/
lemma jsSome_true_exists {α : Type} (f : α → Except JsFault Bool) (l : List α)
    (h : jsSome f l = .ok true) : ∃ x ∈ l, f x = .ok true := by
  induction l with
  | nil => cases h
  | cons a as ih =>
    cases hfa : f a with
    | error e => rw [jsSome, hfa] at h; cases h
    | ok b =>
      cases b with
      | true => exact ⟨a, List.mem_cons_self _ _, hfa⟩
      | false =>
        rw [jsSome, hfa] at h
        simp only [Except.bind, if_false, Bool.false_eq_true] at h
        obtain ⟨x, hx, hfx⟩ := ih h
        exact ⟨x, List.mem_cons_of_mem _ hx, hfx⟩

/-- Indices surviving the shared post-filter: when the allow-list is
non-empty every survivor glob-matches an entry, and with hidden indices
excluded no survivor's name starts with a dot. -/
lemma postFilterIndices_sound (cfg : ServerConfig) (include_hidden : Bool)
    (rows : List CatIndexRow) (out : List IndexInfo)
    (h : postFilterIndices cfg include_hidden rows = .ok out) :
    (cfg.allowedIndexPatterns ≠ [] →
      ∀ i ∈ out, ∃ p ∈ cfg.allowedIndexPatterns, jsGlobMatch p i.index = some true) ∧
    (include_hidden = false → ∀ i ∈ out, startsWithDot i.index = false) := by
  unfold postFilterIndices at h
  by_cases hlen : cfg.allowedIndexPatterns.length > 0
  · rw [if_pos hlen] at h
    have hmem := jsFilter_mem _ _ _ h
    constructor
    · intro _ i hi
      obtain ⟨_, hsome⟩ := hmem i hi
      obtain ⟨p, hp, hmatch⟩ := jsSome_true_exists _ _ hsome
      refine ⟨p, hp, ?_⟩
      unfold globMatchE at hmatch
      cases hg : jsGlobMatch p i.index with
      | none => rw [hg] at hmatch; cases hmatch
      | some b =>
        rw [hg] at hmatch
        cases hmatch
        rfl
    · intro hh i hi
      obtain ⟨hin, _⟩ := hmem i hi
      subst hh
      simp only [Bool.not_false, if_pos] at hin
      have := List.of_mem_filter hin
      simpa using this
  · rw [if_neg hlen] at h
    cases h
    constructor
    · intro hne
      have : cfg.allowedIndexPatterns = [] := by
        cases hL : cfg.allowedIndexPatterns with
        | nil => rfl
        | cons a as => rw [hL] at hlen; simp at hlen
      exact absurd this hne
    · intro hh i hi
      subst hh
      simp only [Bool.not_false, if_pos] at hi
      have := List.of_mem_filter hi
      simpa using this

/-- C10: the index-listing and cluster-discovery operations issue the
backend listing call with the caller's raw pattern regardless of the
allow-list, and enforce the allow-list only by post-filtering: whenever the
allow-list is non-empty, every index in the returned data glob-matches at
least one entry, and names starting with `.` are excluded unless
`include_hidden` is set. -/
theorem C10_listing_postfilter (cfg : ServerConfig) (pattern : String)
    (include_hidden : Bool) (max_indices : Nat) (rows : List CatIndexRow)
    (mappingOf : String → MappingFetch)
    (hvalid : validIndexName pattern = true) :
    ((listIndicesExecute cfg pattern include_hidden rows).2 =
        [BackendCall.catIndicesCall pattern] ∧
      (discoverExecute cfg pattern include_hidden max_indices rows mappingOf).2 =
        [BackendCall.catIndicesCall pattern]) ∧
    (∀ data n, (listIndicesExecute cfg pattern include_hidden rows).1 = .ok (data, n) →
      (cfg.allowedIndexPatterns ≠ [] →
        ∀ i ∈ data, ∃ p ∈ cfg.allowedIndexPatterns, jsGlobMatch p i.index = some true) ∧
      (include_hidden = false → ∀ i ∈ data, startsWithDot i.index = false)) ∧
    (∀ disc, (discoverExecute cfg pattern include_hidden max_indices rows mappingOf).1 =
        .ok disc →
      (cfg.allowedIndexPatterns ≠ [] →
        ∀ i ∈ disc.indices, ∃ p ∈ cfg.allowedIndexPatterns,
          jsGlobMatch p i.index = some true) ∧
      (include_hidden = false → ∀ i ∈ disc.indices, startsWithDot i.index = false)) := by
  have hvn : validateIndexName pattern = .ok () := by
    simp [validateIndexName, hvalid]
  refine ⟨⟨?_, ?_⟩, ?_, ?_⟩
  · unfold listIndicesExecute
    rw [hvn]
    cases hpf : postFilterIndices cfg include_hidden rows <;> rfl
  · unfold discoverExecute
    rw [hvn]
    cases hpf : postFilterIndices cfg include_hidden rows <;> rfl
  · intro data n h
    unfold listIndicesExecute at h
    rw [hvn] at h
    cases hpf : postFilterIndices cfg include_hidden rows with
    | error e => rw [hpf] at h; cases h
    | ok out =>
      rw [hpf] at h
      have hdata : data = out := by cases h; rfl
      subst hdata
      exact postFilterIndices_sound cfg include_hidden rows data hpf
  · intro disc h
    unfold discoverExecute at h
    rw [hvn] at h
    cases hpf : postFilterIndices cfg include_hidden rows with
    | error e => rw [hpf] at h; cases h
    | ok out =>
      rw [hpf] at h
      have hsound := postFilterIndices_sound cfg include_hidden rows out hpf
      have hmem : ∀ i ∈ disc.indices, ∃ j ∈ out, i.index = j.index := by
        intro i hi
        have hdisc : disc.indices =
            ((List.insertionSort docCountGE out).take max_indices).map
              (fun idx =>
                DiscoveredIndex.mk idx.index idx.health idx.status idx.doc_count
                  idx.store_size
                  (match mappingOf idx.index with
                    | .fetched fs => deduplicateFields fs
                    | .failed => [])) := by
          cases h; rfl
        rw [hdisc] at hi
        obtain ⟨j, hj, rfl⟩ := List.mem_map.mp hi
        have hj2 : j ∈ List.insertionSort docCountGE out := List.take_subset _ _ hj
        have hj3 : j ∈ out := (List.perm_insertionSort docCountGE out).mem_iff.mp hj2
        exact ⟨j, hj3, rfl⟩
      constructor
      · intro hne i hi
        obtain ⟨j, hj, hij⟩ := hmem i hi
        obtain ⟨p, hp, hmatch⟩ := hsound.1 hne j hj
        exact ⟨p, hp, by rw [hij]; exact hmatch⟩
      · intro hh i hi
        obtain ⟨j, hj, hij⟩ := hmem i hi
        rw [hij]
        exact hsound.2 hh j hj

/-! ### Evaluation of the redaction engine on card-like sequences

Character-class facts about the digit characters and the separator/mask
characters, used to drive the scanners symbolically over a sequence whose
sixteen digits are arbitrary. -/

lemma dch_isDigit : ∀ i, (dch i).isDigit = true := by decide

lemma dch_isWord : ∀ i, isWordC (dch i) = true := by decide

lemma dch_not_upper : ∀ i, (dch i).isUpper = false := by decide

lemma dch_not_sepSD : ∀ i, isSepSD (dch i) = false := by decide

lemma dch_isLocal : ∀ i, isLocalC (dch i) = true := by decide

lemma dch_ne_hyphen : ∀ i, (dch i == '-') = false := by decide

lemma dch_ne_plus : ∀ i, (dch i == '+') = false := by decide

lemma hyphen_ne_dch : ∀ i, ('-' == dch i) = false := by decide

lemma space_ne_dch : ∀ i, (' ' == dch i) = false := by decide

lemma star_ne_dch : ∀ i, ('*' == dch i) = false := by decide

lemma hyphen_ne_dch_p : ∀ i, '-' ≠ dch i := by decide

lemma space_ne_dch_p : ∀ i, ' ' ≠ dch i := by decide

lemma star_not_digit : ('*').isDigit = false := by decide

lemma hyphen_not_digit : ('-').isDigit = false := by decide

lemma space_not_digit : (' ').isDigit = false := by decide

lemma star_not_upper : ('*').isUpper = false := by decide

lemma hyphen_not_upper : ('-').isUpper = false := by decide

lemma space_not_upper : (' ').isUpper = false := by decide

lemma word_star : isWordC '*' = false := by decide

lemma word_hyphen : isWordC '-' = false := by decide

lemma word_space : isWordC ' ' = false := by decide

lemma local_star : isLocalC '*' = false := by decide

lemma local_hyphen : isLocalC '-' = true := by decide

lemma local_space : isLocalC ' ' = false := by decide

lemma sepSD_space : isSepSD ' ' = true := by decide

lemma sepSD_hyphen : isSepSD '-' = true := by decide

lemma none_beq_some (a : Char) : ((none : Option Char) == some a) = false := rfl

lemma some_beq_some (a b : Char) : ((some a : Option Char) == some b) = (a == b) := rfl

/-- Digit filtering of a card-like sequence keeps exactly its digits. -/
lemma filter_digits_card (d : Fin 16 → Fin 10) (sep : CardSep) :
    (cardChars d sep).filter Char.isDigit = cardDigits d := by
  cases sep <;> simp [cardChars, cardDigits, sepChars, List.filter, dch_isDigit]

/-- `cardDigits` is all digits. -/
lemma filter_cardDigits (d : Fin 16 → Fin 10) :
    (cardDigits d).filter Char.isDigit = cardDigits d := by
  simp [cardDigits, List.filter, dch_isDigit]

/-- The Luhn check of the full sequence equals that of its digit string
(the check strips non-digits itself). -/
lemma luhn_cardChars (d : Fin 16 → Fin 10) (sep : CardSep) :
    luhnCheck (cardChars d sep) = luhnCheck (cardDigits d) := by
  unfold luhnCheck
  rw [filter_digits_card, filter_cardDigits]

/-- The credit-card regex matches a whole card-like sequence at position
0 (the string ends supply both word boundaries). -/
lemma matchCreditAt_card (d : Fin 16 → Fin 10) (sep : CardSep) :
    matchCreditAt none (cardChars d sep) = some (cardChars d sep, []) := by
  cases sep <;>
    simp [cardChars, sepChars, matchCreditAt, matchCardGroups, takeDigits,
      isWordOpt, dch_isDigit, dch_not_sepSD, sepSD_space, sepSD_hyphen]

/-- The leftmost credit-card match on a card-like sequence is the whole
sequence. -/
lemma findFrom_credit_card (d : Fin 16 → Fin 10) (sep : CardSep) :
    findFrom matchCreditAt none (cardChars d sep) =
      some ([], cardChars d sep, []) := by
  have h := matchCreditAt_card d sep
  cases sep <;>
    · rw [show cardChars d _ = _ :: _ from rfl, findFrom]
      rw [show cardChars d _ = _ :: _ from rfl] at h
      rw [h]

/-- The empty string has no match. -/
lemma replaceCount_nil (p : RPattern) (fuel : Nat) (prev : Option Char) :
    replaceCount p fuel prev [] = ([], 0) := by
  cases fuel <;> simp [replaceCount, findFrom]

/-- A pass whose leftmost search fails leaves the string unchanged. -/
lemma replaceCount_none (p : RPattern) (fuel : Nat) (prev : Option Char)
    (s : List Char) (h : findFrom p.matchAt prev s = none) :
    replaceCount p fuel prev s = (s, 0) := by
  cases fuel <;> simp [replaceCount, h]

/-- A pattern pass whose leftmost search fails leaves the state
unchanged. -/
lemma applyPattern_nomatch (acc : List Char × Nat × List String) (p : RPattern)
    (h : findFrom p.matchAt none acc.1 = none) :
    applyPattern acc p = acc := by
  unfold applyPattern
  rw [replaceCount_none p _ none acc.1 h]
  simp

/-- The credit-card pass on a card-like sequence: mask it (count 1) when
the Luhn check passes, leave it (count 0) otherwise. -/
lemma replaceCount_credit_card (d : Fin 16 → Fin 10) (sep : CardSep) (fuel : Nat) :
    replaceCount ⟨"credit_card", matchCreditAt, creditMask⟩ (fuel + 1) none
        (cardChars d sep) =
      (creditMask (cardChars d sep),
        if creditMask (cardChars d sep) == cardChars d sep then 0 else 1) := by
  simp only [replaceCount, findFrom_credit_card]
  rw [replaceCount_nil]
  simp

/-- `creditMask` evaluated on a card-like sequence. -/
lemma creditMask_card (d : Fin 16 → Fin 10) (sep : CardSep) :
    creditMask (cardChars d sep) =
      (if luhnCheck (cardDigits d) = true then cardMasked d sep
       else cardChars d sep) := by
  unfold creditMask
  rw [filter_digits_card]
  have hlen : (cardDigits d).length = 16 := by simp [cardDigits]
  by_cases hl : luhnCheck (cardDigits d) = true
  · rw [if_pos hl, if_neg (by simp [hlen, hl])]
    cases sep <;>
      simp [cardChars, cardMasked, cardDigits, sepChars, List.contains,
        hyphen_ne_dch_p, space_ne_dch_p]
  · have hl2 : luhnCheck (cardDigits d) = false := Bool.eq_false_iff.mpr hl
    rw [if_neg hl, if_pos (by simp [hlen, hl2])]

/-- A Luhn-valid sequence really changes under the mask (so it is counted). -/
lemma cardMasked_ne_cardChars (d : Fin 16 → Fin 10) (sep : CardSep) :
    (cardMasked d sep == cardChars d sep) = false := by
  cases sep <;> simp [cardMasked, cardChars, sepChars, star_ne_dch]

/-- The IBAN pattern finds nothing in a card-like sequence (no letters). -/
lemma findFrom_iban_card (d : Fin 16 → Fin 10) (sep : CardSep) :
    findFrom matchIbanAt none (cardChars d sep) = none := by
  cases sep <;>
    simp [cardChars, sepChars, findFrom, matchIbanAt, isWordOpt, dch_isWord,
      dch_not_upper]

/-- The IBAN pattern finds nothing in the masked sequence. -/
lemma findFrom_iban_masked (d : Fin 16 → Fin 10) (sep : CardSep) :
    findFrom matchIbanAt none (cardMasked d sep) = none := by
  cases sep <;>
    simp [cardMasked, sepChars, findFrom, matchIbanAt, isWordOpt, dch_isWord,
      dch_not_upper, word_star, word_hyphen, word_space, star_not_upper,
      hyphen_not_upper, space_not_upper]

/-- The SSN pattern finds nothing in a card-like sequence (the 3-2-4
hyphenated digit shape never lines up with 4-digit groups). -/
lemma findFrom_ssn_card (d : Fin 16 → Fin 10) (sep : CardSep) :
    findFrom matchSsnAt none (cardChars d sep) = none := by
  cases sep <;>
    simp [cardChars, sepChars, findFrom, matchSsnAt, isWordOpt, dch_isWord,
      dch_isDigit, dch_ne_hyphen, word_star, word_hyphen, word_space,
      star_not_digit, hyphen_not_digit, space_not_digit]

/-- The SSN pattern finds nothing in the masked sequence. -/
lemma findFrom_ssn_masked (d : Fin 16 → Fin 10) (sep : CardSep) :
    findFrom matchSsnAt none (cardMasked d sep) = none := by
  cases sep <;>
    simp [cardMasked, sepChars, findFrom, matchSsnAt, isWordOpt, dch_isWord,
      dch_isDigit, dch_ne_hyphen, word_star, word_hyphen, word_space,
      star_not_digit, hyphen_not_digit, space_not_digit]

/-- The email pattern finds nothing in a card-like sequence (no `@`). -/
lemma findFrom_email_card (d : Fin 16 → Fin 10) (sep : CardSep) :
    findFrom matchEmailAt none (cardChars d sep) = none := by
  cases sep <;>
    simp [cardChars, sepChars, findFrom, matchEmailAt, isWordOpt, dch_isWord,
      dch_isLocal, local_star, local_hyphen, local_space, word_star,
      word_hyphen, word_space, List.dropWhile, none_beq_some, some_beq_some]

/-- The email pattern finds nothing in the masked sequence. -/
lemma findFrom_email_masked (d : Fin 16 → Fin 10) (sep : CardSep) :
    findFrom matchEmailAt none (cardMasked d sep) = none := by
  cases sep <;>
    simp [cardMasked, sepChars, findFrom, matchEmailAt, isWordOpt, dch_isWord,
      dch_isLocal, local_star, local_hyphen, local_space, word_star,
      word_hyphen, word_space, List.dropWhile, none_beq_some, some_beq_some]

/-- The phone pattern finds nothing in a card-like sequence (no `+`). -/
lemma findFrom_phone_card (d : Fin 16 → Fin 10) (sep : CardSep) :
    findFrom matchPhoneAt none (cardChars d sep) = none := by
  cases sep <;>
    simp [cardChars, sepChars, findFrom, matchPhoneAt, dch_ne_plus]

/-- The phone pattern finds nothing in the masked sequence. -/
lemma findFrom_phone_masked (d : Fin 16 → Fin 10) (sep : CardSep) :
    findFrom matchPhoneAt none (cardMasked d sep) = none := by
  cases sep <;>
    simp [cardMasked, sepChars, findFrom, matchPhoneAt, dch_ne_plus]

set_option maxHeartbeats 1000000 in
/-- C2 (amended): the engine's card handling, for every 16-digit sequence
grouped 4-4-4-4 with a uniform optional space/hyphen separator, standing
alone as a string value.  A Luhn-failing sequence is left unmodified with
redaction count 0; a Luhn-passing sequence is masked to `*` runs with the
grouping separator preserved and exactly the last four digits of the input
visible (second conjunct: the masked form's digits are exactly the last
four input digits). -/
theorem C2_card_redaction_amended (d : Fin 16 → Fin 10) (sep : CardSep) :
    redactStringL (cardChars d sep) [] =
      (if luhnCheck (cardChars d sep) = true then
        (cardMasked d sep, 1, ["credit_card"])
      else (cardChars d sep, 0, [])) ∧
    (cardMasked d sep).filter Char.isDigit = (cardDigits d).drop 12 := by
  constructor
  · have hcredit : applyPattern (cardChars d sep, 0, ([] : List String))
        ⟨"credit_card", matchCreditAt, creditMask⟩ =
        (if luhnCheck (cardDigits d) = true then
          (cardMasked d sep, 1, ["credit_card"])
        else (cardChars d sep, 0, [])) := by
      unfold applyPattern
      rw [replaceCount_credit_card d sep (cardChars d sep).length]
      rw [creditMask_card]
      by_cases hl : luhnCheck (cardDigits d) = true
      · rw [if_pos hl, cardMasked_ne_cardChars]
        simp [addType]
        rw [if_pos hl]
      · rw [if_neg hl]
        simp
        rw [if_neg hl]
    rw [luhn_cardChars]
    unfold redactStringL PATTERNS
    rw [List.foldl_cons, hcredit]
    by_cases hl : luhnCheck (cardDigits d) = true
    · rw [if_pos hl]
      rw [List.foldl_cons, applyPattern_nomatch _ _ (findFrom_iban_masked d sep)]
      rw [List.foldl_cons, applyPattern_nomatch _ _ (findFrom_ssn_masked d sep)]
      rw [List.foldl_cons, applyPattern_nomatch _ _ (findFrom_email_masked d sep)]
      rw [List.foldl_cons, applyPattern_nomatch _ _ (findFrom_phone_masked d sep)]
      rw [List.foldl_nil]
    · rw [if_neg hl]
      rw [List.foldl_cons, applyPattern_nomatch _ _ (findFrom_iban_card d sep)]
      rw [List.foldl_cons, applyPattern_nomatch _ _ (findFrom_ssn_card d sep)]
      rw [List.foldl_cons, applyPattern_nomatch _ _ (findFrom_email_card d sep)]
      rw [List.foldl_cons, applyPattern_nomatch _ _ (findFrom_phone_card d sep)]
      rw [List.foldl_nil]
  · cases sep <;>
      simp [cardMasked, cardDigits, sepChars, List.filter, dch_isDigit]

/-- C10 (witness): a concrete run — allow-list `logs-*`, pattern `*`, a
hidden index, a matching index and a non-matching index — issues the raw
listing call and returns only the matching, non-hidden index. -/
theorem C10_listing_postfilter_witness :
    ((listIndicesExecute { allowedIndexPatterns := ["logs-*"] } "*" false
        [⟨".kibana", "green", "open", "1", "1kb"⟩,
         ⟨"logs-2024", "green", "open", "5", "1mb"⟩,
         ⟨"secret", "green", "open", "2", "1kb"⟩]).2 =
      [BackendCall.catIndicesCall "*"]) ∧
    (∀ i ∈ [(⟨"logs-2024", "green", "open", "5", "1mb"⟩ : IndexInfo)],
      ∃ p ∈ ["logs-*"], jsGlobMatch p i.index = some true) := by
  have h := C10_listing_postfilter { allowedIndexPatterns := ["logs-*"] } "*"
    false 50
    [⟨".kibana", "green", "open", "1", "1kb"⟩,
     ⟨"logs-2024", "green", "open", "5", "1mb"⟩,
     ⟨"secret", "green", "open", "2", "1kb"⟩]
    (fun _ => .failed) (by decide)
  refine ⟨h.1.1, ?_⟩
  have h2 := (h.2.1 [⟨"logs-2024", "green", "open", "5", "1mb"⟩] 1 (by rfl)).1
    (by simp)
  exact h2


lemma takeDigits_sound :
    ∀ n l m r, takeDigits n l = some (m, r) →
      l = m ++ r ∧ ∀ c ∈ m, c.isDigit = true := by
  intro n
  induction n with
  | zero =>
    intro l m r h
    rw [takeDigits] at h
    cases h
    exact ⟨rfl, by intro c hc; cases hc⟩
  | succ n ih =>
    intro l m r h
    cases l with
    | nil => rw [takeDigits] at h; cases h
    | cons c l2 =>
      rw [takeDigits] at h
      by_cases hc : c.isDigit
      · rw [if_pos hc] at h
        cases hm : takeDigits n l2 with
        | none => rw [hm] at h; cases h
        | some p =>
          rw [hm] at h
          cases h
          obtain ⟨h1, h2⟩ := ih l2 p.1 p.2 (by rw [hm])
          refine ⟨by rw [h1]; rfl, ?_⟩
          intro x hx
          rcases List.mem_cons.mp hx with rfl | hx2
          · exact hc
          · exact h2 x hx2
      · rw [if_neg hc] at h; cases h

lemma takeSepOpt_sound :
    ∀ take l m r, takeSepOpt take l = some (m, r) →
      l = m ++ r ∧ ∀ c ∈ m, isPhoneSep c = true := by
  intro take l m r h
  cases take with
  | false =>
    rw [takeSepOpt] at h
    cases h
    exact ⟨rfl, by intro c hc; cases hc⟩
  | true =>
    cases l with
    | nil => rw [takeSepOpt] at h; cases h
    | cons c l2 =>
      rw [takeSepOpt] at h
      by_cases hc : isPhoneSep c
      · rw [if_pos hc] at h
        cases h
        refine ⟨rfl, ?_⟩
        intro x hx
        rcases List.mem_cons.mp hx with rfl | hx2
        · exact hc
        · cases hx2
      · rw [if_neg hc] at h; cases h

lemma matchCardGroups_sound :
    ∀ n l m r, matchCardGroups n l = some (m, r) →
      l = m ++ r ∧ ∀ c ∈ m, c.isDigit = true ∨ isSepSD c = true := by
  intro n
  induction n with
  | zero =>
    intro l m r h
    rw [matchCardGroups] at h
    cases h
    exact ⟨rfl, by intro c hc; cases hc⟩
  | succ n ih =>
    intro l m r h
    cases l with
    | nil => rw [matchCardGroups] at h; cases h
    | cons c l2 =>
      rw [matchCardGroups] at h
      by_cases hc : isSepSD c
      · rw [if_pos hc] at h
        cases hd : takeDigits 4 l2 with
        | none => rw [hd] at h; cases h
        | some p =>
          rw [hd, Option.some_bind] at h
          cases hg : matchCardGroups n p.2 with
          | none => rw [hg] at h; cases h
          | some q =>
            rw [hg, Option.map_some'] at h
            cases h
            obtain ⟨hd1, hd2⟩ := takeDigits_sound 4 l2 p.1 p.2 hd
            obtain ⟨hg1, hg2⟩ := ih p.2 q.1 q.2 hg
            refine ⟨by rw [hd1, hg1]; simp, ?_⟩
            intro x hx
            rcases List.mem_cons.mp hx with rfl | hx2
            · exact .inr hc
            · rcases List.mem_append.mp hx2 with hx3 | hx3
              · exact .inl (hd2 x hx3)
              · exact hg2 x hx3
      · rw [if_neg hc] at h
        cases hd : takeDigits 4 (c :: l2) with
        | none => rw [hd] at h; cases h
        | some p =>
          rw [hd, Option.some_bind] at h
          cases hg : matchCardGroups n p.2 with
          | none => rw [hg] at h; cases h
          | some q =>
            rw [hg, Option.map_some'] at h
            cases h
            obtain ⟨hd1, hd2⟩ := takeDigits_sound 4 (c :: l2) p.1 p.2 hd
            obtain ⟨hg1, hg2⟩ := ih p.2 q.1 q.2 hg
            refine ⟨by rw [List.append_assoc, ← hg1, ← hd1], ?_⟩
            intro x hx
            rcases List.mem_append.mp hx with hx3 | hx3
            · exact .inl (hd2 x hx3)
            · exact hg2 x hx3

lemma matchCreditAt_sound : MatcherOK matchCreditAt := by
  intro prev s m r h
  rw [matchCreditAt] at h
  by_cases hw : isWordOpt prev
  · rw [if_pos hw] at h; cases h
  · rw [if_neg hw] at h
    cases hd : takeDigits 4 s with
    | none => rw [hd] at h; cases h
    | some p =>
      rw [hd, Option.some_bind] at h
      cases hg : matchCardGroups 3 p.2 with
      | none => rw [hg] at h; cases h
      | some q =>
        rw [hg, Option.some_bind] at h
        by_cases hb : isWordOpt q.2.head?
        · rw [if_pos hb] at h; cases h
        · rw [if_neg hb] at h
          cases h
          obtain ⟨hd1, hd2⟩ := takeDigits_sound 4 s p.1 p.2 hd
          obtain ⟨hg1, hg2⟩ := matchCardGroups_sound 3 p.2 q.1 q.2 hg
          refine ⟨by rw [List.append_assoc, ← hg1, ← hd1], ?_⟩
          intro hx
          rcases List.mem_append.mp hx with hx2 | hx2
          · have := hd2 _ hx2; simp at this
          · rcases hg2 _ hx2 with hbad | hbad <;> simp [isSepSD, isJsSpace] at hbad

lemma matchIbanAt_sound : MatcherOK matchIbanAt := by
  intro prev s m r h
  rcases s with _ | ⟨a, _ | ⟨b, _ | ⟨c, _ | ⟨e, rest⟩⟩⟩⟩
  · simp only [matchIbanAt] at h; cases h
  · simp only [matchIbanAt] at h; cases h
  · simp only [matchIbanAt] at h; cases h
  · simp only [matchIbanAt] at h; cases h
  · simp only [matchIbanAt] at h
    by_cases hw : isWordOpt prev
    · rw [if_pos hw] at h; cases h
    · rw [if_neg hw] at h
      by_cases hcl : a.isUpper && b.isUpper && c.isDigit && e.isDigit
      · rw [if_pos hcl] at h
        by_cases hlen : 4 ≤ (rest.takeWhile isIbanBodyC).length &&
            (rest.takeWhile isIbanBodyC).length ≤ 30 &&
            !(isWordOpt (rest.dropWhile isIbanBodyC).head?)
        · rw [if_pos hlen] at h
          cases h
          simp only [Bool.and_eq_true] at hcl
          refine ⟨?_, ?_⟩
          · conv_lhs => rw [← List.takeWhile_append_dropWhile isIbanBodyC rest]
            simp
          · intro hx
            simp only [List.mem_cons] at hx
            rcases hx with h1 | h1 | h1 | h1 | h1
            · rw [← h1] at hcl; simp at hcl
            · rw [← h1] at hcl; simp at hcl
            · rw [← h1] at hcl; simp at hcl
            · rw [← h1] at hcl; simp at hcl
            · have := List.mem_takeWhile_imp h1
              simp [isIbanBodyC] at this
        · rw [if_neg hlen] at h; cases h
      · rw [if_neg hcl] at h; cases h

lemma matchSsnAt_sound : MatcherOK matchSsnAt := by
  intro prev s m r h
  rcases s with _ | ⟨a, _ | ⟨b, _ | ⟨c, _ | ⟨s1, _ | ⟨d, _ | ⟨e, _ | ⟨s2, _ | ⟨f, _ | ⟨g, _ | ⟨h9, _ | ⟨i, rest⟩⟩⟩⟩⟩⟩⟩⟩⟩⟩⟩
  · simp only [matchSsnAt] at h; cases h
  · simp only [matchSsnAt] at h; cases h
  · simp only [matchSsnAt] at h; cases h
  · simp only [matchSsnAt] at h; cases h
  · simp only [matchSsnAt] at h; cases h
  · simp only [matchSsnAt] at h; cases h
  · simp only [matchSsnAt] at h; cases h
  · simp only [matchSsnAt] at h; cases h
  · simp only [matchSsnAt] at h; cases h
  · simp only [matchSsnAt] at h; cases h
  · simp only [matchSsnAt] at h; cases h
  · simp only [matchSsnAt] at h
    by_cases hw : isWordOpt prev
    · rw [if_pos hw] at h; cases h
    · rw [if_neg hw] at h
      by_cases hcl : a.isDigit && b.isDigit && c.isDigit && s1 == '-' && d.isDigit &&
          e.isDigit && s2 == '-' && f.isDigit && g.isDigit && h9.isDigit && i.isDigit &&
          !(isWordOpt rest.head?)
      · rw [if_pos hcl] at h
        cases h
        simp only [Bool.and_eq_true, beq_iff_eq] at hcl
        refine ⟨rfl, ?_⟩
        intro hx
        simp only [List.mem_cons] at hx
        obtain ⟨⟨⟨⟨⟨⟨⟨⟨⟨⟨⟨ha, hb⟩, hc⟩, hs1⟩, hd⟩, he⟩, hs2⟩, hf⟩, hg⟩, hh⟩, hi⟩, _⟩ := hcl
        rcases hx with h1 | h1 | h1 | h1 | h1 | h1 | h1 | h1 | h1 | h1 | h1 | h1
        · rw [← h1] at ha; simp at ha
        · rw [← h1] at hb; simp at hb
        · rw [← h1] at hc; simp at hc
        · rw [← h1] at hs1; exact absurd hs1 (by decide)
        · rw [← h1] at hd; simp at hd
        · rw [← h1] at he; simp at he
        · rw [← h1] at hs2; exact absurd hs2 (by decide)
        · rw [← h1] at hf; simp at hf
        · rw [← h1] at hg; simp at hg
        · rw [← h1] at hh; simp at hh
        · rw [← h1] at hi; simp at hi
        · cases h1
      · rw [if_neg hcl] at h; cases h

lemma emailAfterAt_sound (rest2 dm r3 : List Char)
    (h : emailAfterAt rest2 = some (dm, r3)) :
    rest2 = dm ++ r3 ∧ ∀ c ∈ dm, isDomainC c = true := by
  rw [emailAfterAt] at h
  obtain ⟨k, hk, hbody⟩ := List.exists_of_findSome?_eq_some h
  have hklt : k < (rest2.takeWhile isDomainC).length :=
    List.mem_range.mp (List.mem_reverse.mp hk)
  by_cases hk0 : k == 0
  · rw [if_pos hk0] at hbody; cases hbody
  · rw [if_neg hk0] at hbody
    by_cases hdot : (rest2.drop k).head? == some '.'
    · rw [if_pos hdot] at hbody
      by_cases hcond : 2 ≤ ((rest2.drop k).tail.takeWhile Char.isAlpha).length &&
          !(isWordOpt ((rest2.drop k).tail.dropWhile Char.isAlpha).head?)
      · rw [if_pos hcond] at hbody
        cases hbody
        have hdropsplit : rest2.drop k = '.' :: (rest2.drop k).tail := by
          cases hd : rest2.drop k with
          | nil => rw [hd] at hdot; simp at hdot
          | cons x xs =>
            rw [hd] at hdot
            have hx : x = '.' := by simpa using hdot
            rw [hx]
            rfl
        constructor
        · conv_lhs => rw [← List.take_append_drop k rest2, hdropsplit]
          rw [List.append_assoc]
          have htw : (rest2.drop k).tail.takeWhile Char.isAlpha ++
              (rest2.drop k).tail.dropWhile Char.isAlpha = (rest2.drop k).tail :=
            List.takeWhile_append_dropWhile _ _
          simp [htw]
        · intro c hc
          rcases List.mem_append.mp hc with hc1 | hc1
          · have hpref : rest2.take k = (rest2.takeWhile isDomainC).take k := by
              conv_lhs => rw [← List.takeWhile_append_dropWhile isDomainC rest2]
              rw [List.take_append_of_le_length (Nat.le_of_lt hklt)]
            rw [hpref] at hc1
            have : c ∈ rest2.takeWhile isDomainC := List.take_subset _ _ hc1
            exact List.mem_takeWhile_imp this
          · rcases List.mem_cons.mp hc1 with rfl | hc2
            · decide
            · have := List.mem_takeWhile_imp hc2
              simp [isDomainC, Char.isAlphanum, this]
      · rw [if_neg hcond] at hbody; cases hbody
    · rw [if_neg hdot] at hbody; cases hbody

lemma matchEmailAt_sound : MatcherOK matchEmailAt := by
  intro prev s m r h
  cases s with
  | nil => simp only [matchEmailAt] at h; cases h
  | cons c0 srest =>
    simp only [matchEmailAt] at h
    by_cases hcl : isLocalC c0 && (isWordOpt prev != isWordC c0)
    · rw [if_pos hcl] at h
      by_cases hat : ((c0 :: srest).dropWhile isLocalC).head? == some '@'
      · rw [if_pos hat] at h
        cases hafter : emailAfterAt ((c0 :: srest).dropWhile isLocalC).tail with
        | none => rw [hafter] at h; cases h
        | some p =>
          rw [hafter, Option.map_some'] at h
          cases h
          have hsplit : (c0 :: srest).dropWhile isLocalC =
              '@' :: ((c0 :: srest).dropWhile isLocalC).tail := by
            cases hdw : (c0 :: srest).dropWhile isLocalC with
            | nil => rw [hdw] at hat; simp at hat
            | cons x xs =>
              rw [hdw] at hat
              have hx : x = '@' := by simpa using hat
              rw [hx]
              rfl
          obtain ⟨ha1, ha2⟩ := emailAfterAt_sound _ p.1 p.2 hafter
          constructor
          · have h1 : (c0 :: srest).takeWhile isLocalC ++
                (c0 :: srest).dropWhile isLocalC = c0 :: srest :=
              List.takeWhile_append_dropWhile _ _
            conv_lhs => rw [← h1, hsplit, ha1]
            simp
          · intro hx2
            rcases List.mem_append.mp hx2 with hc1 | hc1
            · have := List.mem_takeWhile_imp hc1
              simp [isLocalC] at this
            · rcases List.mem_cons.mp hc1 with heq | hc2
              · cases heq
              · have := ha2 _ hc2
                simp [isDomainC] at this
      · rw [if_neg hat] at h; cases h
    · rw [if_neg hcl] at h; cases h

lemma phoneTry_sound (s : List Char) (t : Nat × Bool × Bool × Nat × Bool × Nat)
    (m r : List Char) (h : phoneTry s t = some (m, r)) :
    s = m ++ r ∧ ∀ c ∈ m, c.isDigit = true ∨ isPhoneSep c = true := by
  obtain ⟨a, s1, s2, b, s3, c⟩ := t
  rw [phoneTry] at h
  cases h1 : takeDigits a s with
  | none => rw [h1] at h; cases h
  | some p1 =>
    rw [h1, Option.some_bind] at h
    cases h2 : takeSepOpt s1 p1.2 with
    | none => rw [h2] at h; cases h
    | some p2 =>
      rw [h2, Option.some_bind] at h
      cases h3 : takeDigits 1 p2.2 with
      | none => rw [h3] at h; cases h
      | some p3 =>
        rw [h3, Option.some_bind] at h
        cases h4 : takeSepOpt s2 p3.2 with
        | none => rw [h4] at h; cases h
        | some p4 =>
          rw [h4, Option.some_bind] at h
          cases h5 : takeDigits b p4.2 with
          | none => rw [h5] at h; cases h
          | some p5 =>
            rw [h5, Option.some_bind] at h
            cases h6 : takeSepOpt s3 p5.2 with
            | none => rw [h6] at h; cases h
            | some p6 =>
              rw [h6, Option.some_bind] at h
              cases h7 : takeDigits c p6.2 with
              | none => rw [h7] at h; cases h
              | some p7 =>
                rw [h7, Option.some_bind] at h
                by_cases hb : isWordOpt p7.2.head?
                · rw [if_pos hb] at h; cases h
                · rw [if_neg hb] at h
                  cases h
                  obtain ⟨e1, d1⟩ := takeDigits_sound _ _ _ _ h1
                  obtain ⟨e2, d2⟩ := takeSepOpt_sound _ _ _ _ h2
                  obtain ⟨e3, d3⟩ := takeDigits_sound _ _ _ _ h3
                  obtain ⟨e4, d4⟩ := takeSepOpt_sound _ _ _ _ h4
                  obtain ⟨e5, d5⟩ := takeDigits_sound _ _ _ _ h5
                  obtain ⟨e6, d6⟩ := takeSepOpt_sound _ _ _ _ h6
                  obtain ⟨e7, d7⟩ := takeDigits_sound _ _ _ _ h7
                  constructor
                  · rw [e1, e2, e3, e4, e5, e6, e7]
                    simp
                  · intro x hx
                    simp only [List.append_assoc, List.mem_append] at hx
                    rcases hx with hx | hx | hx | hx | hx | hx | hx
                    · exact .inl (d1 x hx)
                    · exact .inr (d2 x hx)
                    · exact .inl (d3 x hx)
                    · exact .inr (d4 x hx)
                    · exact .inl (d5 x hx)
                    · exact .inr (d6 x hx)
                    · exact .inl (d7 x hx)

lemma matchPhoneAt_sound : MatcherOK matchPhoneAt := by
  intro prev s m r h
  cases s with
  | nil => simp only [matchPhoneAt] at h; cases h
  | cons c0 rest =>
    simp only [matchPhoneAt] at h
    by_cases hc : c0 == '+'
    · rw [if_pos hc] at h
      cases hfind : phoneTuples.findSome? (phoneTry rest) with
      | none => rw [hfind] at h; cases h
      | some p =>
        rw [hfind, Option.map_some'] at h
        cases h
        obtain ⟨t, _, ht⟩ := List.exists_of_findSome?_eq_some hfind
        obtain ⟨h1, h2⟩ := phoneTry_sound rest t p.1 p.2 ht
        have hceq : c0 = '+' := by simpa using hc
        subst hceq
        constructor
        · rw [h1]; rfl
        · intro hx
          rcases List.mem_cons.mp hx with heq | hx2
          · cases heq
          · rcases h2 _ hx2 with hbad | hbad <;>
              simp [isPhoneSep, isJsSpace] at hbad
    · rw [if_neg hc] at h; cases h

/-- Leftmost search preserves the input decomposition and match purity. -/
lemma findFrom_sound {M} (hM : MatcherOK M) :
    ∀ s prev pre m r, findFrom M prev s = some (pre, m, r) →
      s = pre ++ m ++ r ∧ '*' ∉ m := by
  intro s
  induction s with
  | nil => intro prev pre m r h; cases h
  | cons c rest ih =>
    intro prev pre m r h
    rw [findFrom] at h
    cases hm : M prev (c :: rest) with
    | some p =>
      rw [hm] at h
      cases h
      obtain ⟨h1, h2⟩ := hM prev (c :: rest) p.1 p.2 hm
      exact ⟨by simpa using h1, h2⟩
    | none =>
      rw [hm] at h
      cases hf : findFrom M (some c) rest with
      | none => rw [hf] at h; cases h
      | some q =>
        rw [hf] at h
        cases h
        obtain ⟨h1, h2⟩ := ih (some c) q.1 q.2.1 q.2.2 hf
        exact ⟨by simp [h1], h2⟩

/-- A global replacement pass never loses a mask character. -/
lemma replaceCount_star (p : RPattern) (hM : MatcherOK p.matchAt) :
    ∀ fuel prev s, starCount s ≤ starCount (replaceCount p fuel prev s).1 := by
  intro fuel
  induction fuel with
  | zero => intro prev s; rw [replaceCount]
  | succ fuel ih =>
    intro prev s
    cases hf : findFrom p.matchAt prev s with
    | none => rw [replaceCount, hf]
    | some q =>
      have hgoal : (replaceCount p (fuel + 1) prev s).1 =
          q.1 ++ p.mask q.2.1 ++ (replaceCount p fuel q.2.1.getLast? q.2.2).1 := by
        simp only [replaceCount, hf]
      obtain ⟨h1, h2⟩ := findFrom_sound hM s prev q.1 q.2.1 q.2.2 hf
      have hm0 : List.count '*' q.2.1 = 0 := List.count_eq_zero.mpr h2
      have hrec := ih q.2.1.getLast? q.2.2
      unfold starCount at hrec ⊢
      rw [hgoal, h1]
      simp only [List.count_append]
      omega

/-- One redaction pattern pass never loses a mask character. -/
lemma applyPattern_star (acc : List Char × Nat × List String) (p : RPattern)
    (hM : MatcherOK p.matchAt) :
    starCount acc.1 ≤ starCount (applyPattern acc p).1 :=
  replaceCount_star p hM (acc.1.length + 1) none acc.1

/-- A full `redactString` run never loses a mask character. -/
lemma redactStringL_star (s : List Char) (types : List String) :
    starCount s ≤ starCount (redactStringL s types).1 := by
  unfold redactStringL PATTERNS
  simp only [List.foldl]
  refine le_trans (applyPattern_star (s, 0, types) _ matchCreditAt_sound)
    (le_trans (applyPattern_star _ _ matchIbanAt_sound)
      (le_trans (applyPattern_star _ _ matchSsnAt_sound)
        (le_trans (applyPattern_star _ _ matchEmailAt_sound)
          (applyPattern_star _ _ matchPhoneAt_sound))))

mutual

/-- Recursive traversal never loses a mask character (values). -/
lemma redactJson_star : ∀ (j : Json) (types : List String),
    starCountJ j ≤ starCountJ (redactJson j types).1
  | .null, _ => Nat.le_refl _
  | .bool _, _ => Nat.le_refl _
  | .num _, _ => Nat.le_refl _
  | .str s, types => redactStringL_star s.data types
  | .arr xs, types => redactArr_star xs types
  | .obj kvs, types => redactObj_star kvs types

/-- Recursive traversal never loses a mask character (arrays). -/
lemma redactArr_star : ∀ (xs : List Json) (types : List String),
    starCountArr xs ≤ starCountArr (redactArr xs types).1
  | [], _ => Nat.le_refl _
  | x :: xs, types => by
    have h1 := redactJson_star x types
    have h2 := redactArr_star xs (redactJson x types).2.2
    show starCountJ x + starCountArr xs ≤
      starCountJ (redactJson x types).1 +
        starCountArr (redactArr xs (redactJson x types).2.2).1
    omega

/-- Recursive traversal never loses a mask character (objects). -/
lemma redactObj_star : ∀ (kvs : List (String × Json)) (types : List String),
    starCountObj kvs ≤ starCountObj (redactObj kvs types).1
  | [], _ => Nat.le_refl _
  | (_, v) :: kvs, types => by
    have h1 := redactJson_star v types
    have h2 := redactObj_star kvs (redactJson v types).2.2
    show starCountJ v + starCountObj kvs ≤
      starCountJ (redactJson v types).1 +
        starCountObj (redactObj kvs (redactJson v types).2.2).1
    omega

end

/-- C9 (amended): re-running `Redact` on already-redacted data may find
additional changing matches (built from preserved mask remnants and
adjacent unmasked text — see the counterexample), so redaction is not
idempotent; but the engine never un-masks: the number of mask characters
`*` anywhere in a value never decreases across a run, in particular across
a re-run on `redactedData`. -/
theorem C9_never_unmasks_amended (j : Json) :
    starCountJ j ≤ starCountJ (redactPII j).redactedData :=
  redactJson_star j []

/-- C9 (counterexample): redaction is not idempotent in the claimed sense.
Redacting `4111-1111-1111-1111 2222 3333 4444` masks the Luhn-valid card
and keeps its last four digits, producing
`****-****-****-1111 2222 3333 4444`; re-running `Redact` on that already
redacted value finds one additional *changing* match — `1111 2222 3333
4444`, formed from the preserved last-4 remnant and the adjacent unmasked
digit groups, which is not made of mask characters — and masks it further,
yielding `****-****-****-**** **** **** 4444`. -/
theorem C9_counterexample :
    redactPII (Json.str "4111-1111-1111-1111 2222 3333 4444") =
      ⟨Json.str "****-****-****-1111 2222 3333 4444", 1, ["credit_card"]⟩ ∧
    redactPII (Json.str "****-****-****-1111 2222 3333 4444") =
      ⟨Json.str "****-****-****-**** **** **** 4444", 1, ["credit_card"]⟩ ∧
    ("****-****-****-**** **** **** 4444" : String) ≠
      "****-****-****-1111 2222 3333 4444" := by
  exact ⟨rfl, rfl, by decide⟩

end KibanaMCP
